import Mathlib

/-!
# broadcast: a typed one-to-many broadcast group over channels

A sequential embedding of broadcast.go.  The channels of the Go runtime live in
a heap (a list of channel objects addressed by pointer); a reflect.Value that
holds a channel is its dynamic type together with that pointer.  Every section
of the source that runs under the mutex of the group is one atomic function on
the state; the background goroutine of NewGroup is a step function on its
program point.

The reflect and runtime operations the package calls (MakeChan, Convert,
Select, Close, Recv, TypeOf, ValueOf) follow the Go runtime and the reflect
package of Go 1.22 and later.  In particular the method Close of reflect.Value
panics on a receive-only channel value, and a send finds a consumer that is
blocked in a receive before it looks at the buffer.

A channel is its capacity, its buffered values, its closed flag, the number of
consumers blocked in a receive on it, and the values that were handed directly
to such consumers.  Consumers receive with the arrow operator (which may
block), with a receive that does not wait, and may give up a wait, as the
selects with a timeout in the tests do.  The goroutine of the group is the
only receiver of the input channel; its blocking receive is the program point
Running, and the value a producer sends is passed to its step as an offer.
-/

namespace Broadcast

/-! ## Types and values of the reflect package -/

/-- Direction of a channel type (reflect.ChanDir). -/
inductive ChanDir
  | RecvDir
  | SendDir
  | BothDir
  deriving DecidableEq

/-- Runtime type descriptors (reflect.Type).  Two descriptors are the same Go
type exactly when they are equal. -/
inductive GoType
  | base (id : Nat)
  | chanOf (dir : ChanDir) (elem : GoType)
  deriving DecidableEq

/-- The reflect.Value of a channel: its dynamic type and the pointer to the
channel object.  Used as a map key it is compared field by field. -/
structure Value where
  typ : GoType
  ptr : Nat
  deriving DecidableEq

/-- An interface value: nothing (the nil interface) or a typed value. -/
abbrev Iface := Option Value

/-- The function reflect.TypeOf: the dynamic type of an interface value, nil for
the nil interface. -/
def TypeOf (c : Iface) : Option GoType :=
  c.map Value.typ

/-- The function reflect.ValueOf on a non-nil interface value. -/
def ValueOf (c : Iface) : Option Value :=
  c

/-! ## Channels of the runtime -/

/-- A channel object: capacity, buffered values (oldest first), closed flag, the
number of consumers blocked in a receive on it, and the values that sends have
handed directly to blocked consumers (oldest first). -/
structure Chan (α : Type) where
  cap : Nat
  buf : List α
  closed : Bool
  recvq : Nat
  handed : List α
  deriving DecidableEq

/-- The heap of channel objects; a pointer is an index, a pointer outside the
heap is the nil channel. -/
abbrev Heap (α : Type) := List (Chan α)

/-- The function reflect.MakeChan with buffer size n: a fresh open empty channel
at a fresh pointer.  A negative size panics (none); the allocation limit of the
runtime is not modelled. -/
def MakeChan {α : Type} (heap : Heap α) (n : Int) : Option (Heap α × Nat) :=
  if n < 0 then none
  else some (heap ++ [{ cap := n.toNat, buf := [], closed := false, recvq := 0, handed := [] }],
    heap.length)

/-- Non-blocking send on a channel object (the send case of a select that also
has a default case), in the order of the runtime: sending on a closed channel
panics (none); if a consumer is blocked in a receive the value is handed to it
and the buffer is not used; else with room the value is enqueued at the end;
else nothing happens.  The Boolean tells whether the send took place. -/
def Chan.trySend {α : Type} (c : Chan α) (d : α) : Option (Chan α × Bool) :=
  if c.closed then none
  else if 0 < c.recvq then
    some ({ c with recvq := c.recvq - 1, handed := c.handed ++ [d] }, true)
  else if c.buf.length < c.cap then some ({ c with buf := c.buf ++ [d] }, true)
  else some (c, false)

/-- Closing a channel object: panics (none) when it is closed already; the
consumers blocked on it are released (each gets the zero value with
ok = false). -/
def Chan.close {α : Type} (c : Chan α) : Option (Chan α) :=
  if c.closed then none else some { c with closed := true, recvq := 0 }

/-- A receive on a channel object, as the arrow operator does it: the oldest
buffered value with ok = true; on an empty closed channel the zero value with
ok = false; on an empty open channel the consumer blocks: it is counted in
recvq and there is no result yet (none). -/
def Chan.recv {α : Type} [Inhabited α] (c : Chan α) : Chan α × Option (α × Bool) :=
  match c.buf with
  | x :: xs => ({ c with buf := xs }, some (x, true))
  | [] => if c.closed then (c, some (default, false)) else ({ c with recvq := c.recvq + 1 }, none)

/-- A receive that does not wait (a receive case in a select with a default
case): like a receive, except that on an empty open channel it finds nothing
and leaves the channel as it is. -/
def Chan.tryRecv {α : Type} [Inhabited α] (c : Chan α) : Chan α × Option (α × Bool) :=
  match c.buf with
  | x :: xs => ({ c with buf := xs }, some (x, true))
  | [] => if c.closed then (c, some (default, false)) else (c, none)

/-- A blocked consumer gives up waiting (a receive case in a select whose
other case fires, as the timeouts in the tests): it leaves the wait queue.
There is none to leave when no consumer is blocked. -/
def Chan.leave {α : Type} (c : Chan α) : Option (Chan α) :=
  if 0 < c.recvq then some { c with recvq := c.recvq - 1 } else none

/-- The builtin close on the channel at pointer p: close of the nil channel
panics, close of a closed channel panics. -/
def chanClose {α : Type} (heap : Heap α) (p : Nat) : Option (Heap α) :=
  match heap[p]? with
  | none => none
  | some c =>
    match c.close with
    | none => none
    | some c' => some (heap.set p c')

/-- Method Close of reflect.Value: it panics (none) if the value is not a
channel, and it panics if the channel type is receive-only (its direction has
no send part); otherwise it closes the channel behind the value. -/
def Value.Close {α : Type} (v : Value) (heap : Heap α) : Option (Heap α) :=
  match v.typ with
  | .base _ => none
  | .chanOf .RecvDir _ => none
  | .chanOf _ _ => chanClose heap v.ptr

/-- A receive through a handle, as the consumer code does with the arrow
operator; the heap is updated with the channel after the receive. -/
def chanRecv {α : Type} [Inhabited α] (heap : Heap α) (p : Nat) :
    Option (Heap α × Option (α × Bool)) :=
  match heap[p]? with
  | none => none
  | some c => some (heap.set p c.recv.1, c.recv.2)

/-! ## Select cases -/

/-- Direction of a select case (reflect.SelectDir). -/
inductive SelectDir
  | SelectSend
  | SelectRecv
  | SelectDefault
  deriving DecidableEq

/-- One case of reflect.Select.  Chan and Send are the zero Value when absent. -/
structure SelectCase (α : Type) where
  Dir : SelectDir
  Chan : Option Value
  Send : Option α
  deriving DecidableEq

/-- The function reflect.Select on the one shape of case list this package
builds: a send case followed by a default case.  The result is the heap after
the select and the index of the chosen case; none is a panic (send on a closed
channel).  A send on the nil channel is never ready, so the default is taken.
Other shapes are never built by the package and are not modelled (none). -/
def Select {α : Type} (heap : Heap α) (cases : List (SelectCase α)) :
    Option (Heap α × Nat) :=
  match cases with
  | [c0, c1] =>
    match c0.Dir, c0.Chan, c0.Send, c1.Dir, c1.Chan, c1.Send with
    | .SelectSend, some ch, some d, .SelectDefault, none, none =>
      match heap[ch.ptr]? with
      | none => some (heap, 1)
      | some c =>
        match c.trySend d with
        | none => none
        | some (c', true) => some (heap.set ch.ptr c', 0)
        | some (_, false) => some (heap, 1)
    | _, _, _, _, _, _ => none
  | _ => none

/-! ## The group -/

/-- One entry of the map g.out: the key and the slice of select cases. -/
abbrev Entry (α : Type) := Value × List (SelectCase α)

/-- The struct Group, without its mutex: every function below that the source
runs between Lock and Unlock is atomic. -/
structure Group (α : Type) where
  chanType : GoType
  sendType : GoType
  receiveType : GoType
  inp : Value
  out : List (Entry α)
  deriving DecidableEq

/-- Program point of the goroutine started by NewGroup: Running is the blocking
receive on g.in, Closing is the branch taken when that receive reports closure
(before the lock is taken), Terminated is after the return. -/
inductive LoopState
  | Running
  | Closing
  | Terminated
  deriving DecidableEq

/-- The whole state: channel heap, group, and the program point of the
goroutine. -/
structure State (α : Type) where
  heap : Heap α
  g : Group α
  loop : LoopState
  deriving DecidableEq

/-- Map assignment m[k] = v: replaces the value of an existing key, else adds
the entry. -/
def mapSet {α : Type} (m : List (Entry α)) (k : Value) (v : List (SelectCase α)) :
    List (Entry α) :=
  if m.any (fun e => e.1 == k) then m.map (fun e => if e.1 = k then (k, v) else e)
  else m ++ [(k, v)]

/-- Map deletion delete(m, k): a no-op when the key is absent. -/
def mapDelete {α : Type} (m : List (Entry α)) (k : Value) : List (Entry α) :=
  m.filter (fun e => e.1 != k)

/-- The keys of the registry. -/
def keys {α : Type} (s : State α) : List Value :=
  s.g.out.map Prod.fst

/-- NewGroup for element type t (the type of the prototype value), on a fresh
heap: the three channel types, the unbuffered input channel, an empty registry
and the goroutine at its receive. -/
def NewGroup (α : Type) (t : GoType) : State α :=
  { heap := [{ cap := 0, buf := [], closed := false, recvq := 0, handed := [] }]
    g := { chanType := .chanOf .BothDir t
           sendType := .chanOf .SendDir t
           receiveType := .chanOf .RecvDir t
           inp := { typ := .chanOf .BothDir t, ptr := 0 }
           out := [] }
    loop := .Running }

/-- SendChannel: the input channel converted to the send type. -/
def SendChannel {α : Type} (s : State α) : Iface :=
  some { typ := s.g.sendType, ptr := s.g.inp.ptr }

/-- ReceiveChannel(n): make a channel of size n, convert it to the receive type,
register it under that converted value with the two select cases, return the
converted value. -/
def ReceiveChannel {α : Type} (s : State α) (n : Int) : Option (State α × Value) :=
  match MakeChan s.heap n with
  | none => none
  | some (heap', p) =>
    let ch : Value := { typ := s.g.chanType, ptr := p }
    let rch : Value := { typ := s.g.receiveType, ptr := p }
    some ({ s with
              heap := heap'
              g := { s.g with
                       out := mapSet s.g.out rch
                         [{ Dir := .SelectSend, Chan := some ch, Send := none },
                          { Dir := .SelectDefault, Chan := none, Send := none }] } },
          rch)

/-- The error value of CloseReceiveChannel: the two types its message prints. -/
structure CloseError where
  got : Option GoType
  expected : GoType
  deriving DecidableEq

/-- CloseReceiveChannel(c): a type check that returns an error without touching
anything; otherwise close the channel behind c and delete the key c.  The
result is the state after the call and the returned error (none for nil); a
panic inside Close is the outer none. -/
def CloseReceiveChannel {α : Type} (s : State α) (c : Iface) :
    Option (State α × Option CloseError) :=
  let t := TypeOf c
  if t ≠ some s.g.receiveType then
    some (s, some { got := t, expected := s.g.receiveType })
  else
    match ValueOf c with
    | none => none
    | some ch =>
      match ch.Close s.heap with
      | none => none
      | some heap' =>
        some ({ s with heap := heap', g := { s.g with out := mapDelete s.g.out ch } }, none)

/-- Body of the range loop of a dispatch pass for one entry: store d in the Send
field of the first case (the slice shares its array with the map, so the
registry sees the store), then Select. -/
def dispatchEntry {α : Type} (d : α) (heap : Heap α) (e : Entry α) :
    Option (Heap α × Entry α) :=
  match e.2 with
  | [] => none
  | c0 :: rest =>
    let v := { c0 with Send := some d } :: rest
    match Select heap v with
    | none => none
    | some (heap', _) => some (heap', (e.1, v))

/-- The range loop of a dispatch pass over the entries of the registry.  The
order in which Go ranges over a map is not specified; the list order stands for
the order the runtime picks, and the lemmas on the loop describe its result by
membership only, so they hold for every order. -/
def dispatchLoop {α : Type} (d : α) : Heap α → List (Entry α) → Option (Heap α × List (Entry α))
  | heap, [] => some (heap, [])
  | heap, e :: es =>
    match dispatchEntry d heap e with
    | none => none
    | some (heap', e') =>
      match dispatchLoop d heap' es with
      | none => none
      | some (heap'', es') => some (heap'', e' :: es')

/-- One dispatch pass for the received value d (the locked section after a
successful receive). -/
def dispatch {α : Type} (s : State α) (d : α) : Option (State α) :=
  match dispatchLoop d s.heap s.g.out with
  | none => none
  | some (heap', out') => some { s with heap := heap', g := { s.g with out := out' } }

/-- The range loop of the shutdown: close each key and delete it.  Deleting the
current key while ranging is allowed in Go and removes no key that is still to
come. -/
def shutdownLoop {α : Type} : Heap α → List (Entry α) → List Value →
    Option (Heap α × List (Entry α))
  | heap, out, [] => some (heap, out)
  | heap, out, i :: rest =>
    match i.Close heap with
    | none => none
    | some heap' => shutdownLoop heap' (mapDelete out i) rest

/-- The locked section run when the input channel is found closed. -/
def shutdown {α : Type} (s : State α) : Option (State α) :=
  match shutdownLoop s.heap s.g.out (keys s) with
  | none => none
  | some (heap', out') => some { s with heap := heap', g := { s.g with out := out' } }

/-- What g.in.Recv() gives the goroutine: closure when the input channel is
closed, otherwise the value of a producer that is sending (offer), otherwise
it keeps waiting (none). -/
def inRecv {α : Type} [Inhabited α] (s : State α) (offer : Option α) : Option (α × Bool) :=
  match s.heap[s.g.inp.ptr]? with
  | none => none
  | some c => if c.closed then some (default, false) else offer.map (fun d => (d, true))

/-- One step of the goroutine.  At the receive: a value leads to a dispatch
pass, closure leads to Closing, nothing to receive leaves the state alone.  In
Closing: the shutdown section, then the return.  After the return nothing
runs.  The outer none is a panic. -/
def loopStep {α : Type} [Inhabited α] (s : State α) (offer : Option α) : Option (State α) :=
  match s.loop with
  | .Running =>
    match inRecv s offer with
    | none => some s
    | some (d, true) => dispatch s d
    | some (_, false) => some { s with loop := .Closing }
  | .Closing =>
    match shutdown s with
    | none => none
    | some s' => some { s' with loop := .Terminated }
  | .Terminated => some s

/-- The producer closing the send channel with the builtin close. -/
def closeSend {α : Type} (s : State α) : Option (State α) :=
  match chanClose s.heap s.g.inp.ptr with
  | none => none
  | some heap' => some { s with heap := heap' }

/-- A consumer receiving through handle h with the arrow operator.  A receive
on the nil channel never returns (none). -/
def receive {α : Type} [Inhabited α] (s : State α) (h : Value) :
    Option (State α × Option (α × Bool)) :=
  match chanRecv s.heap h.ptr with
  | none => none
  | some (heap', r) => some ({ s with heap := heap' }, r)

/-- A consumer probing handle h with a receive that does not wait. -/
def tryReceive {α : Type} [Inhabited α] (s : State α) (h : Value) :
    Option (State α × Option (α × Bool)) :=
  match s.heap[h.ptr]? with
  | none => none
  | some c => some ({ s with heap := s.heap.set h.ptr c.tryRecv.1 }, c.tryRecv.2)

/-- A consumer blocked on handle h gives up waiting; none when there is no such
consumer. -/
def giveUp {α : Type} (s : State α) (h : Value) : Option (State α) :=
  match s.heap[h.ptr]? with
  | none => none
  | some c =>
    match c.leave with
    | none => none
    | some c' => some { s with heap := s.heap.set h.ptr c' }

/-! ## Derived notions used to state the properties -/

variable {α : Type}

/-- The effect of one non-blocking send on an open channel: handed to a blocked
consumer, else appended when there is room, else nothing. -/
def Chan.push (c : Chan α) (d : α) : Chan α :=
  if 0 < c.recvq then { c with recvq := c.recvq - 1, handed := c.handed ++ [d] }
  else if c.buf.length < c.cap then { c with buf := c.buf ++ [d] }
  else c

/-- The select cases ReceiveChannel stores for pointer p. -/
def casesFor (ct : GoType) (p : Nat) (snd : Option α) : List (SelectCase α) :=
  [{ Dir := .SelectSend, Chan := some { typ := ct, ptr := p }, Send := snd },
   { Dir := .SelectDefault, Chan := none, Send := none }]

/-- The channel pointers of a list of registry entries. -/
def ptrsOf (es : List (Entry α)) : List Nat :=
  es.map (fun e => e.1.ptr)

/-- What a dispatch pass leaves in the registry: the same keys, with d stored in
the Send field of each first case. -/
def stamped (ct : GoType) (d : α) (es : List (Entry α)) : List (Entry α) :=
  es.map (fun e => (e.1, casesFor ct e.1.ptr (some d)))

/-- A channel after it has been closed. -/
def Chan.shut (c : Chan α) : Chan α :=
  { c with closed := true, recvq := 0 }

/-- Well-formed states: the registry is a map (no pointer twice), the input
channel exists and is not registered, and every entry is what ReceiveChannel
stored, for an existing open channel. -/
structure WF (s : State α) : Prop where
  ptrs_nodup : (ptrsOf s.g.out).Nodup
  inp_lt : s.g.inp.ptr < s.heap.length
  entry : ∀ e ∈ s.g.out, e.1.typ = s.g.receiveType ∧ e.1.ptr ≠ s.g.inp.ptr ∧
    (∃ snd, e.2 = casesFor s.g.chanType e.1.ptr snd) ∧
    ∃ c, s.heap[e.1.ptr]? = some c ∧ c.closed = false

/-- The key under which the next ReceiveChannel registers its channel. -/
def freshKey (s : State α) : Value :=
  { typ := s.g.receiveType, ptr := s.heap.length }

/-- The state after a successful ReceiveChannel(n) on a state whose registry
does not hold the fresh key. -/
def registered (s : State α) (n : Int) : State α :=
  { heap := s.heap ++ [{ cap := n.toNat, buf := [], closed := false, recvq := 0, handed := [] }]
    g := { s.g with out := s.g.out ++ [(freshKey s, casesFor s.g.chanType s.heap.length none)] }
    loop := s.loop }

/-- The fixed part of a group: its three types and its input channel value. -/
def sameGroup (s s' : State α) : Prop :=
  s'.g.chanType = s.g.chanType ∧ s'.g.sendType = s.g.sendType ∧
    s'.g.receiveType = s.g.receiveType ∧ s'.g.inp = s.g.inp

/-- The state CloseReceiveChannel returns with nil when its Close does not
panic: the channel c behind h closed and the key h deleted. -/
def unregistered (s : State α) (h : Value) (c : Chan α) : State α :=
  { heap := s.heap.set h.ptr c.shut
    g := { s.g with out := mapDelete s.g.out h }
    loop := s.loop }

/-- The states a group created by NewGroup for element type t can be in: any
sequence of registrations, CloseReceiveChannel calls that return, steps of the
goroutine that do not panic, the producer closing the send channel, and
consumers receiving through a channel value: with a receive that returns or
blocks, with a receive that does not wait, or giving up a wait. -/
inductive Reachable [Inhabited α] (t : GoType) : State α → Prop
  | init : Reachable t (NewGroup α t)
  | register {s s' : State α} {n : Int} {h : Value} :
      Reachable t s → ReceiveChannel s n = some (s', h) → Reachable t s'
  | unregister {s s' : State α} {c : Iface} {e : Option CloseError} :
      Reachable t s → CloseReceiveChannel s c = some (s', e) → Reachable t s'
  | step {s s' : State α} {offer : Option α} :
      Reachable t s → loopStep s offer = some s' → Reachable t s'
  | closeSend {s s' : State α} :
      Reachable t s → closeSend s = some s' → Reachable t s'
  | read {s s' : State α} {h : Value} {r : Option (α × Bool)} :
      Reachable t s → receive s h = some (s', r) → Reachable t s'
  | probe {s s' : State α} {h : Value} {r : Option (α × Bool)} :
      Reachable t s → tryReceive s h = some (s', r) → Reachable t s'
  | leave {s s' : State α} {h : Value} :
      Reachable t s → giveUp s h = some s' → Reachable t s'

/-- The group of a state is the one NewGroup built for element type t. -/
def groupOf (t : GoType) (s : State α) : Prop :=
  s.g.chanType = .chanOf .BothDir t ∧ s.g.sendType = .chanOf .SendDir t ∧
    s.g.receiveType = .chanOf .RecvDir t ∧ s.g.inp = { typ := .chanOf .BothDir t, ptr := 0 }

/-- Successive dispatch passes for the values ds, in order. -/
def passes (s : State α) : List α → Option (State α)
  | [] => some s
  | d :: ds =>
    match dispatch s d with
    | none => none
    | some s1 => passes s1 ds

/-- The effect of successive non-blocking sends on an open channel. -/
def Chan.pushAll (c : Chan α) (ds : List α) : Chan α :=
  ds.foldl Chan.push c

/-- Whether the input channel has been closed. -/
def inputClosed (s : State α) : Bool :=
  match s.heap[s.g.inp.ptr]? with
  | some c => c.closed
  | none => false

/-- The goroutine receiving the values ds from producers, one per step. -/
def processAll [Inhabited α] (s : State α) : List α → Option (State α)
  | [] => some s
  | d :: ds =>
    match loopStep s (some d) with
    | none => none
    | some s1 => processAll s1 ds

/-- ReceiveChannel called once for each size in ns, in order; the handles are
returned in the same order. -/
def registerAll (s : State α) : List Int → Option (State α × List Value)
  | [] => some (s, [])
  | n :: ns =>
    match ReceiveChannel s n with
    | none => none
    | some (s1, h) =>
      match registerAll s1 ns with
      | none => none
      | some (s2, hs) => some (s2, h :: hs)

/-- The consumer receiving k times through handle h; the results are listed in
order. -/
def receiveN [Inhabited α] (s : State α) (h : Value) : Nat → Option (State α × List (Option (α × Bool)))
  | 0 => some (s, [])
  | k + 1 =>
    match receive s h with
    | none => none
    | some (s1, r) =>
      match receiveN s1 h k with
      | none => none
      | some (s2, rs) => some (s2, r :: rs)

/-- A group for element type 0 with one receiver of size 1 that buffers the
value 7. -/
def bufferedExample : State Int :=
  { heap := [{ cap := 0, buf := [], closed := false, recvq := 0, handed := [] },
             { cap := 1, buf := [7], closed := false, recvq := 0, handed := [] }]
    g := { chanType := .chanOf .BothDir (.base 0)
           sendType := .chanOf .SendDir (.base 0)
           receiveType := .chanOf .RecvDir (.base 0)
           inp := { typ := .chanOf .BothDir (.base 0), ptr := 0 }
           out := [({ typ := .chanOf .RecvDir (.base 0), ptr := 1 },
                    casesFor (.chanOf .BothDir (.base 0)) 1 (some 7))] }
    loop := .Running }

/-- The group of bufferedExample after the producer has closed the send
channel. -/
def closedExample : State Int :=
  { bufferedExample with
      heap := [{ cap := 0, buf := [], closed := true, recvq := 0, handed := [] },
               { cap := 1, buf := [7], closed := false, recvq := 0, handed := [] }] }

/-- A group for element type 0 with one receiver of size 0 on which a consumer
is blocked in a receive (the situation of TestUnbuffered). -/
def waitingExample : State Int :=
  { heap := [{ cap := 0, buf := [], closed := false, recvq := 0, handed := [] },
             { cap := 0, buf := [], closed := false, recvq := 1, handed := [] }]
    g := { chanType := .chanOf .BothDir (.base 0)
           sendType := .chanOf .SendDir (.base 0)
           receiveType := .chanOf .RecvDir (.base 0)
           inp := { typ := .chanOf .BothDir (.base 0), ptr := 0 }
           out := [({ typ := .chanOf .RecvDir (.base 0), ptr := 1 },
                    casesFor (.chanOf .BothDir (.base 0)) 1 none)] }
    loop := .Running }

/-- A group without receivers whose goroutine has found the input channel
closed. -/
def emptyClosingExample : State Int :=
  { heap := [{ cap := 0, buf := [], closed := true, recvq := 0, handed := [] }]
    g := { chanType := .chanOf .BothDir (.base 0)
           sendType := .chanOf .SendDir (.base 0)
           receiveType := .chanOf .RecvDir (.base 0)
           inp := { typ := .chanOf .BothDir (.base 0), ptr := 0 }
           out := [] }
    loop := .Closing }

/-- What happens around one receiver: a dispatch pass for a value, or a consumer
starting a receive through the handle of that receiver. -/
inductive Ev (α : Type)
  | pass (d : α)
  | read

/-- The values of the dispatch passes of a trace, in order. -/
def dispatched : List (Ev α) → List α
  | [] => []
  | .pass d :: evs => d :: dispatched evs
  | .read :: evs => dispatched evs

/-- The value a receive returned at once, if it returned one. -/
def delivered (r : Option (α × Bool)) : List α :=
  match r with
  | some (v, true) => [v]
  | _ => []

/-- The values handed so far to consumers blocked on the channel of h. -/
def handedAt (s : State α) (h : Value) : List α :=
  match s.heap[h.ptr]? with
  | some c => c.handed
  | none => []

/-- Run a trace of passes and receives through handle h.  The result is the
final state and the values the consumers of h got, in the order they got them:
a receive that finds a buffered value gets it at once, a receive that finds
nothing blocks, and a blocked consumer gets the value a later pass hands to
it. -/
def observe [Inhabited α] (s : State α) (h : Value) : List (Ev α) → Option (State α × List α)
  | [] => some (s, [])
  | .pass d :: evs =>
    match dispatch s d with
    | none => none
    | some s1 =>
      match observe s1 h evs with
      | none => none
      | some (s2, rs) => some (s2, (handedAt s1 h).drop (handedAt s h).length ++ rs)
  | .read :: evs =>
    match receive s h with
    | none => none
    | some (s1, r) =>
      match observe s1 h evs with
      | none => none
      | some (s2, rs) => some (s2, delivered r ++ rs)

/-- The calls and steps that can follow the return of the goroutine. -/
inductive Call (α : Type)
  | register (n : Int)
  | unregister (c : Iface)
  | step (offer : Option α)

/-- Run one call, dropping what it returns; none is a panic. -/
def Call.run [Inhabited α] (s : State α) : Call α → Option (State α)
  | .register n => (ReceiveChannel s n).map Prod.fst
  | .unregister c => (CloseReceiveChannel s c).map Prod.fst
  | .step offer => loopStep s offer

/-- Run a sequence of calls in order. -/
def runCalls [Inhabited α] (s : State α) : List (Call α) → Option (State α)
  | [] => some s
  | call :: calls =>
    match call.run s with
    | none => none
    | some s1 => runCalls s1 calls

/-! ## Lemmas about the operations -/

theorem trySend_open (c : Chan α) (d : α) (h : c.closed = false) :
    c.trySend d = some (c.push d, decide (0 < c.recvq ∨ c.buf.length < c.cap)) := by
  unfold Chan.trySend Chan.push
  by_cases hw : 0 < c.recvq
  · simp [h, hw]
  · by_cases hr : c.buf.length < c.cap <;> simp [h, hw, hr]

theorem select_casesFor (heap : Heap α) (ct : GoType) (p : Nat) (d : α) (c : Chan α)
    (hc : heap[p]? = some c) (ho : c.closed = false) :
    ∃ heap' i, Select heap (casesFor ct p (some d)) = some (heap', i) ∧
      heap'.length = heap.length ∧
      ∀ q, heap'[q]? = if q = p then some (c.push d) else heap[q]? := by
  have hp : p < heap.length := by
    rcases Nat.lt_or_ge p heap.length with h | h
    · exact h
    · rw [List.getElem?_eq_none h] at hc; cases hc
  by_cases hr : 0 < c.recvq ∨ c.buf.length < c.cap
  · refine ⟨heap.set p (c.push d), 0, ?_, by simp, ?_⟩
    · simp [Select, casesFor, hc, trySend_open c d ho, hr]
    · intro q
      by_cases hq : q = p
      · subst hq; simp [hp]
      · simp [hq, List.getElem?_set_ne (Ne.symm hq)]
  · refine ⟨heap, 1, ?_, rfl, ?_⟩
    · simp [Select, casesFor, hc, trySend_open c d ho, hr]
    · intro q
      have h1 : ¬ 0 < c.recvq := fun h => hr (Or.inl h)
      have h2 : ¬ c.buf.length < c.cap := fun h => hr (Or.inr h)
      by_cases hq : q = p
      · subst hq; simp [hc, Chan.push, h1, h2]
      · simp [hq]

theorem dispatchEntry_spec (heap : Heap α) (ct : GoType) (d : α) (e : Entry α) (c : Chan α)
    (hs : ∃ snd, e.2 = casesFor ct e.1.ptr snd)
    (hc : heap[e.1.ptr]? = some c) (ho : c.closed = false) :
    ∃ heap', dispatchEntry d heap e = some (heap', (e.1, casesFor ct e.1.ptr (some d))) ∧
      heap'.length = heap.length ∧
      ∀ q, heap'[q]? = if q = e.1.ptr then some (c.push d) else heap[q]? := by
  obtain ⟨snd, hs⟩ := hs
  obtain ⟨heap', i, h1, h2, h3⟩ := select_casesFor heap ct e.1.ptr d c hc ho
  refine ⟨heap', ?_, h2, h3⟩
  unfold dispatchEntry
  rw [hs]
  simp only [casesFor] at h1 ⊢
  rw [h1]

theorem dispatchLoop_spec (ct : GoType) (d : α) : ∀ (es : List (Entry α)) (heap : Heap α),
    (∀ e ∈ es, (∃ snd, e.2 = casesFor ct e.1.ptr snd) ∧
      ∃ c, heap[e.1.ptr]? = some c ∧ c.closed = false) →
    (ptrsOf es).Nodup →
    ∃ heap', dispatchLoop d heap es = some (heap', stamped ct d es) ∧
      heap'.length = heap.length ∧
      ∀ q, heap'[q]? = if q ∈ ptrsOf es then (heap[q]?).map (fun c => c.push d) else heap[q]? := by
  intro es
  induction es with
  | nil =>
    intro heap _ _
    exact ⟨heap, rfl, rfl, by simp [ptrsOf]⟩
  | cons e es ih =>
    intro heap hall hnd
    have he := hall e (List.mem_cons_self _ _)
    obtain ⟨hs, c, hc, ho⟩ := he
    obtain ⟨heap1, h1, hl1, hq1⟩ := dispatchEntry_spec heap ct d e c hs hc ho
    simp only [ptrsOf, List.map_cons, List.nodup_cons] at hnd
    obtain ⟨hnotin, hnd'⟩ := hnd
    have hall' : ∀ e' ∈ es, (∃ snd, e'.2 = casesFor ct e'.1.ptr snd) ∧
        ∃ c, heap1[e'.1.ptr]? = some c ∧ c.closed = false := by
      intro e' he'
      obtain ⟨hs', c', hc', ho'⟩ := hall e' (List.mem_cons_of_mem _ he')
      refine ⟨hs', c', ?_, ho'⟩
      have hne : e'.1.ptr ≠ e.1.ptr := by
        intro heq
        apply hnotin
        rw [← heq]
        exact List.mem_map_of_mem (fun e => e.1.ptr) he'
      rw [hq1, if_neg hne]
      exact hc'
    obtain ⟨heap2, h2, hl2, hq2⟩ := ih heap1 hall' hnd'
    refine ⟨heap2, ?_, by rw [hl2, hl1], ?_⟩
    · simp only [dispatchLoop, h1, h2, stamped, List.map_cons]
    · intro q
      rw [hq2, hq1]
      by_cases hqe : q = e.1.ptr
      · subst hqe
        have hno : ¬ (e.1.ptr ∈ ptrsOf es) := hnotin
        have hm : e.1.ptr ∈ ptrsOf (e :: es) := by simp [ptrsOf]
        rw [if_neg hno, if_pos rfl, if_pos hm, hc]
        rfl
      · by_cases hqs : q ∈ ptrsOf es
        · have : q ∈ ptrsOf (e :: es) := by
            simp only [ptrsOf, List.map_cons]; exact List.mem_cons_of_mem _ hqs
          rw [if_pos hqs, if_pos this, if_neg hqe]
        · have : ¬ (q ∈ ptrsOf (e :: es)) := by
            simp only [ptrsOf, List.map_cons, List.mem_cons, not_or]
            exact ⟨hqe, hqs⟩
          rw [if_neg hqs, if_neg this, if_neg hqe]

theorem getElem?_some_lt {β : Type} {l : List β} {p : Nat} {c : β} (h : l[p]? = some c) :
    p < l.length := by
  rcases Nat.lt_or_ge p l.length with h1 | h1
  · exact h1
  · rw [List.getElem?_eq_none h1] at h; cases h

theorem getElem?_set_if {β : Type} (l : List β) (p q : Nat) (c c' : β) (h : l[p]? = some c) :
    (l.set p c')[q]? = if q = p then some c' else l[q]? := by
  have hp := getElem?_some_lt h
  by_cases hq : q = p
  · subst hq; simp [hp]
  · rw [if_neg hq, List.getElem?_set_ne (Ne.symm hq)]

theorem chanClose_open (heap : Heap α) (p : Nat) (c : Chan α)
    (hc : heap[p]? = some c) (ho : c.closed = false) :
    chanClose heap p = some (heap.set p c.shut) := by
  simp [chanClose, hc, Chan.close, ho, Chan.shut]

theorem chanClose_some (heap heap' : Heap α) (p : Nat) (h : chanClose heap p = some heap') :
    ∃ c, heap[p]? = some c ∧ c.closed = false ∧ heap' = heap.set p c.shut := by
  unfold chanClose at h
  cases hc : heap[p]? with
  | none => rw [hc] at h; cases h
  | some c =>
    rw [hc] at h
    cases ho : c.closed with
    | true => simp [Chan.close, ho] at h
    | false =>
      simp [Chan.close, ho] at h
      exact ⟨c, rfl, ho, by rw [← h]; rfl⟩

theorem Close_some (heap heap' : Heap α) (v : Value) (h : v.Close heap = some heap') :
    chanClose heap v.ptr = some heap' := by
  unfold Value.Close at h
  split at h
  · cases h
  · cases h
  · exact h

/-- Method Close of reflect.Value panics on every receive-only channel value. -/
theorem Close_recvDir (heap : Heap α) (v : Value) (t : GoType)
    (h : v.typ = .chanOf .RecvDir t) : v.Close heap = none := by
  unfold Value.Close
  rw [h]

theorem mem_keys_of_mem {s : State α} {e : Entry α} (h : e ∈ s.g.out) : e.1 ∈ keys s :=
  List.mem_map_of_mem Prod.fst h

theorem mem_ptrsOf_of_mem {es : List (Entry α)} {e : Entry α} (h : e ∈ es) :
    e.1.ptr ∈ ptrsOf es :=
  List.mem_map_of_mem (fun e => e.1.ptr) h

theorem mem_keys_iff {s : State α} {k : Value} : k ∈ keys s ↔ ∃ e ∈ s.g.out, e.1 = k := by
  simp [keys]

theorem mem_ptrsOf_iff {es : List (Entry α)} {p : Nat} :
    p ∈ ptrsOf es ↔ ∃ e ∈ es, e.1.ptr = p := by
  simp [ptrsOf]

/-- In a well-formed state a receive-typed value is a key exactly when its
pointer is a registered pointer. -/
theorem WF.key_iff_ptr {s : State α} (hw : WF s) (k : Value) (hk : k.typ = s.g.receiveType) :
    k ∈ keys s ↔ k.ptr ∈ ptrsOf s.g.out := by
  rw [mem_keys_iff, mem_ptrsOf_iff]
  constructor
  · rintro ⟨e, he, rfl⟩; exact ⟨e, he, rfl⟩
  · rintro ⟨e, he, hp⟩
    refine ⟨e, he, ?_⟩
    have ht := (hw.entry e he).1
    cases hk1 : k; cases he1 : e.1
    rw [hk1] at hk hp; rw [he1] at ht hp
    simp at hk hp ht ⊢
    exact ⟨by rw [ht, hk], hp⟩

theorem WF.key_open {s : State α} (hw : WF s) {k : Value} (hk : k ∈ keys s) :
    k.typ = s.g.receiveType ∧ k.ptr ≠ s.g.inp.ptr ∧
      ∃ c, s.heap[k.ptr]? = some c ∧ c.closed = false := by
  obtain ⟨e, he, rfl⟩ := mem_keys_iff.1 hk
  obtain ⟨h1, h2, _, h4⟩ := hw.entry e he
  exact ⟨h1, h2, h4⟩

theorem mapSet_fresh (m : List (Entry α)) (k : Value) (v : List (SelectCase α))
    (h : k ∉ m.map Prod.fst) : mapSet m k v = m ++ [(k, v)] := by
  unfold mapSet
  have : m.any (fun e => e.1 == k) = false := by
    rw [List.any_eq_false]
    intro e he hek
    apply h
    have : e.1 = k := by simpa using hek
    rw [← this]
    exact List.mem_map_of_mem Prod.fst he
  simp [this]

theorem shutdownLoop_some : ∀ (ks : List Value) (heap : Heap α) (out : List (Entry α))
    (heap' : Heap α) (out' : List (Entry α)),
    shutdownLoop heap out ks = some (heap', out') →
    heap'.length = heap.length ∧ out' = out.filter (fun e => decide (e.1 ∉ ks)) := by
  intro ks
  induction ks with
  | nil =>
    intro heap out heap' out' h
    simp only [shutdownLoop, Option.some.injEq, Prod.mk.injEq] at h
    obtain ⟨rfl, rfl⟩ := h
    exact ⟨rfl, by simp⟩
  | cons k ks ih =>
    intro heap out heap' out' h
    simp only [shutdownLoop] at h
    cases hc : k.Close heap with
    | none => rw [hc] at h; cases h
    | some heap1 =>
      rw [hc] at h
      simp only at h
      obtain ⟨c, _, _, rfl⟩ := chanClose_some _ _ _ (Close_some _ _ _ hc)
      obtain ⟨h1, h2⟩ := ih _ _ _ _ h
      refine ⟨by rw [h1]; simp, ?_⟩
      rw [h2]
      simp only [mapDelete, List.filter_filter]
      apply List.filter_congr
      intro e _
      by_cases e1 : e.1 = k <;> by_cases e2 : e.1 ∈ ks <;> simp [e1, e2]

theorem keys_ptr (s : State α) : (keys s).map Value.ptr = ptrsOf s.g.out := by
  simp [keys, ptrsOf, List.map_map, Function.comp_def]

/-- Whenever the shutdown section returns, the registry is empty and the heap
has kept its size. -/
theorem shutdown_some {s s' : State α} (h : shutdown s = some s') :
    ∃ heap', s' = { heap := heap', g := { s.g with out := [] }, loop := s.loop } ∧
      heap'.length = s.heap.length := by
  unfold shutdown at h
  cases hl : shutdownLoop s.heap s.g.out (keys s) with
  | none => rw [hl] at h; cases h
  | some r =>
    obtain ⟨heap', out'⟩ := r
    rw [hl] at h
    simp only [Option.some.injEq] at h
    obtain ⟨h1, h2⟩ := shutdownLoop_some _ _ _ _ _ hl
    have hf : s.g.out.filter (fun e => decide (e.1 ∉ keys s)) = [] := by
      rw [List.filter_eq_nil_iff]
      intro e he
      simp [mem_keys_of_mem he]
    rw [hf] at h2
    subst h2
    exact ⟨heap', h.symm, h1⟩

/-- With an empty registry the shutdown section has nothing to close. -/
theorem shutdown_empty {s : State α} (hk : keys s = []) : shutdown s = some s := by
  have ho : s.g.out = [] := by
    simpa [keys] using hk
  simp only [shutdown, hk, shutdownLoop, ← ho]

/-- With a registered receive-only key the shutdown section panics at the
first Close. -/
theorem shutdown_panics {s : State α} (t : GoType)
    (hall : ∀ k ∈ keys s, k.typ = .chanOf .RecvDir t) (hk : keys s ≠ []) :
    shutdown s = none := by
  unfold shutdown
  cases hks : keys s with
  | nil => exact absurd hks hk
  | cons k ks =>
    have hkt := hall k (by rw [hks]; exact List.mem_cons_self _ _)
    simp only [shutdownLoop, Close_recvDir s.heap k t hkt]

/-- A dispatch pass on a well-formed state: it does not panic, it keeps the keys
of the registry and it offers d once to each registered channel. -/
theorem dispatch_spec {s : State α} (hw : WF s) (d : α) :
    ∃ heap', dispatch s d =
        some { heap := heap', g := { s.g with out := stamped s.g.chanType d s.g.out }, loop := s.loop } ∧
      heap'.length = s.heap.length ∧
      ∀ q, heap'[q]? =
        if q ∈ ptrsOf s.g.out then (s.heap[q]?).map (fun c => c.push d) else s.heap[q]? := by
  have hall : ∀ e ∈ s.g.out, (∃ snd, e.2 = casesFor s.g.chanType e.1.ptr snd) ∧
      ∃ c, s.heap[e.1.ptr]? = some c ∧ c.closed = false :=
    fun e he => (hw.entry e he).2.2
  obtain ⟨heap', h1, h2, h3⟩ := dispatchLoop_spec s.g.chanType d s.g.out s.heap hall hw.ptrs_nodup
  exact ⟨heap', by simp only [dispatch, h1], h2, h3⟩

theorem ptrsOf_stamped (ct : GoType) (d : α) (es : List (Entry α)) :
    ptrsOf (stamped ct d es) = ptrsOf es := by
  simp [ptrsOf, stamped, List.map_map, Function.comp_def]

theorem keys_stamped (ct : GoType) (d : α) (es : List (Entry α)) :
    (stamped ct d es).map Prod.fst = es.map Prod.fst := by
  simp [stamped, List.map_map, Function.comp_def]

theorem push_closed (c : Chan α) (d : α) : (c.push d).closed = c.closed := by
  unfold Chan.push
  split
  · rfl
  · split <;> rfl

theorem push_cap (c : Chan α) (d : α) : (c.push d).cap = c.cap := by
  unfold Chan.push
  split
  · rfl
  · split <;> rfl

theorem WF.ptr_lt {s : State α} (hw : WF s) {p : Nat} (hp : p ∈ ptrsOf s.g.out) :
    p < s.heap.length := by
  obtain ⟨e, he, rfl⟩ := mem_ptrsOf_iff.1 hp
  obtain ⟨c, hc, _⟩ := (hw.entry e he).2.2.2
  exact getElem?_some_lt hc

theorem WF.freshKey_not_mem {s : State α} (hw : WF s) : freshKey s ∉ keys s := by
  intro h
  have h1 := (hw.key_iff_ptr (freshKey s) rfl).1 h
  exact Nat.lt_irrefl _ (hw.ptr_lt h1)

theorem ReceiveChannel_neg (s : State α) (n : Int) (hn : n < 0) : ReceiveChannel s n = none := by
  simp [ReceiveChannel, MakeChan, hn]

theorem ReceiveChannel_spec {s : State α} (hw : WF s) (n : Int) (hn : 0 ≤ n) :
    ReceiveChannel s n = some (registered s n, freshKey s) := by
  have h1 : ¬ n < 0 := not_lt.mpr hn
  have h2 := mapSet_fresh s.g.out (freshKey s) (casesFor s.g.chanType s.heap.length none)
    hw.freshKey_not_mem
  simp only [ReceiveChannel, MakeChan, h1, if_false, registered]
  simp only [freshKey, casesFor] at h2 ⊢
  rw [h2]

theorem ReceiveChannel_some {s s' : State α} (hw : WF s) {n : Int} {h : Value}
    (hr : ReceiveChannel s n = some (s', h)) : 0 ≤ n ∧ s' = registered s n ∧ h = freshKey s := by
  rcases lt_or_le n 0 with hn | hn
  · rw [ReceiveChannel_neg s n hn] at hr; cases hr
  · rw [ReceiveChannel_spec hw n hn] at hr
    simp only [Option.some.injEq, Prod.mk.injEq] at hr
    exact ⟨hn, hr.1.symm, hr.2.symm⟩

theorem WF_NewGroup (α : Type) (t : GoType) : WF (NewGroup α t) := by
  refine ⟨by simp [NewGroup, ptrsOf], by simp [NewGroup], ?_⟩
  intro e he
  simp [NewGroup] at he

theorem WF_registered {s : State α} (hw : WF s) (n : Int) : WF (registered s n) := by
  refine ⟨?_, ?_, ?_⟩
  · simp only [registered, ptrsOf, List.map_append, List.map_cons, List.map_nil]
    rw [List.nodup_append]
    refine ⟨hw.ptrs_nodup, by simp, ?_⟩
    intro p hp1 hp2
    simp only [List.mem_singleton] at hp2
    have := hw.ptr_lt hp1
    simp only [hp2, freshKey] at this
    exact Nat.lt_irrefl _ this
  · simp only [registered, List.length_append, List.length_singleton]
    exact Nat.lt_succ_of_lt hw.inp_lt
  · intro e he
    simp only [registered, List.mem_append, List.mem_singleton] at he
    rcases he with he | he
    · obtain ⟨h1, h2, h3, c, hc, ho⟩ := hw.entry e he
      refine ⟨h1, h2, h3, c, ?_, ho⟩
      simp only [registered]
      rw [List.getElem?_append_left (getElem?_some_lt hc)]
      exact hc
    · subst he
      refine ⟨rfl, ?_, ⟨none, rfl⟩, ⟨{ cap := n.toNat, buf := [], closed := false, recvq := 0, handed := [] }, ?_, rfl⟩⟩
      · simp only [freshKey]
        exact Nat.ne_of_gt hw.inp_lt
      · simp [registered, freshKey]

theorem WF_dispatch {s s' : State α} (hw : WF s) {d : α} (h : dispatch s d = some s') :
    WF s' ∧ sameGroup s s' ∧ s'.loop = s.loop := by
  obtain ⟨heap', h1, h2, h3⟩ := dispatch_spec hw d
  rw [h1] at h
  simp only [Option.some.injEq] at h
  subst h
  refine ⟨⟨?_, ?_, ?_⟩, ⟨rfl, rfl, rfl, rfl⟩, rfl⟩
  · simp only [ptrsOf_stamped]; exact hw.ptrs_nodup
  · simp only [h2]; exact hw.inp_lt
  · intro e he
    simp only [stamped, List.mem_map] at he
    obtain ⟨e0, he0, rfl⟩ := he
    obtain ⟨t1, t2, _, c, hc, ho⟩ := hw.entry e0 he0
    refine ⟨t1, t2, ⟨some d, rfl⟩, c.push d, ?_, by rw [push_closed]; exact ho⟩
    simp only [h3, if_pos (mem_ptrsOf_of_mem he0), hc, Option.map_some']

theorem WF_shutdown {s s' : State α} (hw : WF s) (h : shutdown s = some s') :
    WF s' ∧ sameGroup s s' ∧ s'.loop = s.loop ∧ s'.g.out = [] := by
  obtain ⟨heap', rfl, h2⟩ := shutdown_some h
  refine ⟨⟨by simp [ptrsOf], ?_, ?_⟩, ⟨rfl, rfl, rfl, rfl⟩, rfl, rfl⟩
  · simp only [h2]; exact hw.inp_lt
  · intro e he; simp at he

theorem WF_heap_set {s : State α} (hw : WF s) (p : Nat) (c c' : Chan α)
    (hc : s.heap[p]? = some c) (hcl : p ∈ ptrsOf s.g.out → c'.closed = false) :
    WF { s with heap := s.heap.set p c' } := by
  refine ⟨hw.ptrs_nodup, by simp only [List.length_set]; exact hw.inp_lt, ?_⟩
  intro e he
  obtain ⟨t1, t2, t3, c0, hc0, ho0⟩ := hw.entry e he
  refine ⟨t1, t2, t3, ?_⟩
  simp only [getElem?_set_if s.heap p e.1.ptr c c' hc]
  by_cases hq : e.1.ptr = p
  · rw [if_pos hq]
    exact ⟨c', rfl, hcl (hq ▸ mem_ptrsOf_of_mem he)⟩
  · rw [if_neg hq]
    exact ⟨c0, hc0, ho0⟩

theorem WF_closeSend {s s' : State α} (hw : WF s) (h : closeSend s = some s') :
    WF s' ∧ sameGroup s s' ∧ s'.loop = s.loop ∧ s'.g.out = s.g.out := by
  unfold closeSend at h
  cases hc : chanClose s.heap s.g.inp.ptr with
  | none => rw [hc] at h; cases h
  | some heap' =>
    rw [hc] at h
    simp only [Option.some.injEq] at h
    subst h
    obtain ⟨c, hc1, _, rfl⟩ := chanClose_some _ _ _ hc
    refine ⟨WF_heap_set hw _ c _ hc1 ?_, ⟨rfl, rfl, rfl, rfl⟩, rfl, rfl⟩
    intro hp
    obtain ⟨e, he, hpe⟩ := mem_ptrsOf_iff.1 hp
    exact absurd hpe (hw.entry e he).2.1

theorem recv_closed [Inhabited α] (c : Chan α) : c.recv.1.closed = c.closed := by
  unfold Chan.recv
  cases c.buf with
  | nil => simp only; split <;> rfl
  | cons x xs => rfl

theorem recv_handed [Inhabited α] (c : Chan α) : c.recv.1.handed = c.handed := by
  unfold Chan.recv
  cases c.buf with
  | nil => simp only; split <;> rfl
  | cons x xs => rfl

theorem recv_cap [Inhabited α] (c : Chan α) : c.recv.1.cap = c.cap := by
  unfold Chan.recv
  cases c.buf with
  | nil => simp only; split <;> rfl
  | cons x xs => rfl

theorem receive_some [Inhabited α] {s s' : State α} {h : Value} {r : Option (α × Bool)}
    (hr : receive s h = some (s', r)) :
    ∃ c, s.heap[h.ptr]? = some c ∧ s' = { s with heap := s.heap.set h.ptr c.recv.1 } ∧
      r = c.recv.2 := by
  unfold receive chanRecv at hr
  cases hc : s.heap[h.ptr]? with
  | none => rw [hc] at hr; cases hr
  | some c =>
    rw [hc] at hr
    simp only [Option.some.injEq, Prod.mk.injEq] at hr
    exact ⟨c, rfl, hr.1.symm, hr.2.symm⟩

theorem WF_receive [Inhabited α] {s s' : State α} {h : Value} {r : Option (α × Bool)}
    (hw : WF s) (hr : receive s h = some (s', r)) :
    WF s' ∧ sameGroup s s' ∧ s'.loop = s.loop ∧ s'.g.out = s.g.out := by
  obtain ⟨c, hc, rfl, _⟩ := receive_some hr
  refine ⟨WF_heap_set hw _ c _ hc ?_, ⟨rfl, rfl, rfl, rfl⟩, rfl, rfl⟩
  intro hp
  obtain ⟨e, he, hpe⟩ := mem_ptrsOf_iff.1 hp
  obtain ⟨c0, hc0, ho0⟩ := (hw.entry e he).2.2.2
  rw [hpe, hc] at hc0
  simp only [Option.some.injEq] at hc0
  rw [recv_closed, hc0]; exact ho0

theorem CloseReceiveChannel_mismatch (s : State α) (c : Iface)
    (h : TypeOf c ≠ some s.g.receiveType) :
    CloseReceiveChannel s c =
      some (s, some { got := TypeOf c, expected := s.g.receiveType }) := by
  simp only [CloseReceiveChannel]
  rw [if_pos h]

theorem CloseReceiveChannel_match (s : State α) (c : Iface)
    (h : TypeOf c = some s.g.receiveType) :
    ∃ ch, c = some ch ∧ ch.typ = s.g.receiveType ∧
      CloseReceiveChannel s c =
        (ch.Close s.heap).map
          (fun heap' => ({ s with heap := heap', g := { s.g with out := mapDelete s.g.out ch } }, none)) := by
  cases c with
  | none => simp [TypeOf] at h
  | some ch =>
    have ht : ch.typ = s.g.receiveType := by simpa [TypeOf] using h
    refine ⟨ch, rfl, ht, ?_⟩
    simp only [CloseReceiveChannel, h, ne_eq, not_true_eq_false, if_false, ValueOf]
    cases ch.Close s.heap <;> rfl

/-- When the receive type of the group is receive-only, CloseReceiveChannel on
an argument of that type panics inside Close: it returns neither nil nor an
error. -/
theorem CloseReceiveChannel_panics (s : State α) (c : Iface) (t : GoType)
    (hrt : s.g.receiveType = .chanOf .RecvDir t) (h : TypeOf c = some s.g.receiveType) :
    CloseReceiveChannel s c = none := by
  obtain ⟨ch, _, h2, h3⟩ := CloseReceiveChannel_match s c h
  rw [h3, Close_recvDir s.heap ch t (h2.trans hrt)]
  rfl

theorem mem_mapDelete {m : List (Entry α)} {k : Value} {e : Entry α} :
    e ∈ mapDelete m k ↔ e ∈ m ∧ e.1 ≠ k := by
  simp [mapDelete]

theorem WF_unregistered {s : State α} (hw : WF s) (h : Value) (c : Chan α)
    (ht : h.typ = s.g.receiveType) (hc : s.heap[h.ptr]? = some c) : WF (unregistered s h c) := by
  refine ⟨?_, ?_, ?_⟩
  · exact hw.ptrs_nodup.sublist (List.Sublist.map _ (List.filter_sublist _))
  · simp only [unregistered, List.length_set]; exact hw.inp_lt
  · intro e he
    have he' := mem_mapDelete.1 he
    obtain ⟨t1, t2, t3, c0, hc0, ho0⟩ := hw.entry e he'.1
    refine ⟨t1, t2, t3, c0, ?_, ho0⟩
    have hne : e.1.ptr ≠ h.ptr := by
      intro hp
      apply he'.2
      cases he1 : e.1; cases h1 : h
      rw [he1] at t1 hp; rw [h1] at ht hp
      simp at t1 hp ht ⊢
      exact ⟨by rw [t1, ht], hp⟩
    simp only [unregistered, getElem?_set_if s.heap h.ptr e.1.ptr c c.shut hc, if_neg hne]
    exact hc0

theorem WF_CloseReceiveChannel {s s' : State α} (hw : WF s) {c : Iface} {e : Option CloseError}
    (h : CloseReceiveChannel s c = some (s', e)) :
    WF s' ∧ sameGroup s s' ∧ s'.loop = s.loop := by
  by_cases ht : TypeOf c = some s.g.receiveType
  · obtain ⟨ch, _, h2, h3⟩ := CloseReceiveChannel_match s c ht
    rw [h3] at h
    cases hc : ch.Close s.heap with
    | none => rw [hc] at h; cases h
    | some heap' =>
      rw [hc] at h
      simp only [Option.map_some', Option.some.injEq, Prod.mk.injEq] at h
      obtain ⟨c0, hc0, _, rfl⟩ := chanClose_some _ _ _ (Close_some _ _ _ hc)
      rw [← h.1]
      exact ⟨WF_unregistered hw ch c0 h2 hc0, ⟨rfl, rfl, rfl, rfl⟩, rfl⟩
  · rw [CloseReceiveChannel_mismatch s c ht] at h
    simp only [Option.some.injEq, Prod.mk.injEq] at h
    rw [← h.1]
    exact ⟨hw, ⟨rfl, rfl, rfl, rfl⟩, rfl⟩

theorem WF_loop {s : State α} (hw : WF s) (l : LoopState) : WF { s with loop := l } :=
  ⟨hw.ptrs_nodup, hw.inp_lt, hw.entry⟩

theorem WF_loopStep [Inhabited α] {s s' : State α} (hw : WF s) {offer : Option α}
    (h : loopStep s offer = some s') : WF s' ∧ sameGroup s s' := by
  unfold loopStep at h
  cases hl : s.loop with
  | Running =>
    rw [hl] at h
    simp only at h
    cases hr : inRecv s offer with
    | none =>
      rw [hr] at h
      simp only [Option.some.injEq] at h
      subst h
      exact ⟨hw, rfl, rfl, rfl, rfl⟩
    | some r =>
      obtain ⟨d, ok⟩ := r
      rw [hr] at h
      cases ok with
      | true =>
        simp only at h
        have := WF_dispatch hw h
        exact ⟨this.1, this.2.1⟩
      | false =>
        simp only [Option.some.injEq] at h
        subst h
        exact ⟨WF_loop hw _, rfl, rfl, rfl, rfl⟩
  | Closing =>
    rw [hl] at h
    simp only at h
    cases hs : shutdown s with
    | none => rw [hs] at h; cases h
    | some s1 =>
      rw [hs] at h
      simp only [Option.some.injEq] at h
      subst h
      have := WF_shutdown hw hs
      exact ⟨WF_loop this.1 _, this.2.1⟩
  | Terminated =>
    rw [hl] at h
    simp only [Option.some.injEq] at h
    subst h
    exact ⟨hw, rfl, rfl, rfl, rfl⟩

theorem tryRecv_closed [Inhabited α] (c : Chan α) : c.tryRecv.1.closed = c.closed := by
  unfold Chan.tryRecv
  cases c.buf with
  | nil => simp only; split <;> rfl
  | cons x xs => rfl

theorem WF_tryReceive [Inhabited α] {s s' : State α} {h : Value} {r : Option (α × Bool)}
    (hw : WF s) (hr : tryReceive s h = some (s', r)) : WF s' ∧ sameGroup s s' := by
  unfold tryReceive at hr
  cases hc : s.heap[h.ptr]? with
  | none => rw [hc] at hr; cases hr
  | some c =>
    rw [hc] at hr
    simp only [Option.some.injEq, Prod.mk.injEq] at hr
    rw [← hr.1]
    refine ⟨WF_heap_set hw _ c _ hc ?_, ⟨rfl, rfl, rfl, rfl⟩⟩
    intro hp
    obtain ⟨e, he, hpe⟩ := mem_ptrsOf_iff.1 hp
    obtain ⟨c0, hc0, ho0⟩ := (hw.entry e he).2.2.2
    rw [hpe, hc] at hc0
    simp only [Option.some.injEq] at hc0
    rw [tryRecv_closed, hc0]; exact ho0

theorem WF_giveUp {s s' : State α} {h : Value} (hw : WF s) (hr : giveUp s h = some s') :
    WF s' ∧ sameGroup s s' := by
  unfold giveUp at hr
  cases hc : s.heap[h.ptr]? with
  | none => rw [hc] at hr; cases hr
  | some c =>
    rw [hc] at hr
    simp only [Chan.leave] at hr
    by_cases hq : 0 < c.recvq
    · simp only [hq, if_true, Option.some.injEq] at hr
      rw [← hr]
      refine ⟨WF_heap_set hw _ c _ hc ?_, ⟨rfl, rfl, rfl, rfl⟩⟩
      intro hp
      obtain ⟨e, he, hpe⟩ := mem_ptrsOf_iff.1 hp
      obtain ⟨c0, hc0, ho0⟩ := (hw.entry e he).2.2.2
      rw [hpe, hc] at hc0
      simp only [Option.some.injEq] at hc0
      simp only [hc0]; exact ho0
    · simp only [hq, if_false] at hr
      cases hr

theorem groupOf_of_sameGroup {t : GoType} {s s' : State α} (h : groupOf t s)
    (hs : sameGroup s s') : groupOf t s' := by
  obtain ⟨a, b, c, d⟩ := h
  obtain ⟨a', b', c', d'⟩ := hs
  exact ⟨a'.trans a, b'.trans b, c'.trans c, d'.trans d⟩

theorem Reachable.inv [Inhabited α] {t : GoType} {s : State α} (h : Reachable t s) :
    WF s ∧ groupOf t s := by
  induction h with
  | init => exact ⟨WF_NewGroup α t, rfl, rfl, rfl, rfl⟩
  | register _ hr ih =>
    obtain ⟨_, rfl, _⟩ := ReceiveChannel_some ih.1 hr
    exact ⟨WF_registered ih.1 _, groupOf_of_sameGroup ih.2 ⟨rfl, rfl, rfl, rfl⟩⟩
  | unregister _ hr ih =>
    have := WF_CloseReceiveChannel ih.1 hr
    exact ⟨this.1, groupOf_of_sameGroup ih.2 this.2.1⟩
  | step _ hr ih =>
    have := WF_loopStep ih.1 hr
    exact ⟨this.1, groupOf_of_sameGroup ih.2 this.2⟩
  | closeSend _ hr ih =>
    have := WF_closeSend ih.1 hr
    exact ⟨this.1, groupOf_of_sameGroup ih.2 this.2.1⟩
  | read _ hr ih =>
    have := WF_receive ih.1 hr
    exact ⟨this.1, groupOf_of_sameGroup ih.2 this.2.1⟩
  | probe _ hr ih =>
    have := WF_tryReceive ih.1 hr
    exact ⟨this.1, groupOf_of_sameGroup ih.2 this.2⟩
  | leave _ hr ih =>
    have := WF_giveUp ih.1 hr
    exact ⟨this.1, groupOf_of_sameGroup ih.2 this.2⟩

theorem pushAll_cons (c : Chan α) (d : α) (ds : List α) :
    c.pushAll (d :: ds) = (c.push d).pushAll ds := rfl

theorem pushAll_closed (c : Chan α) (ds : List α) : (c.pushAll ds).closed = c.closed := by
  induction ds generalizing c with
  | nil => rfl
  | cons d ds ih => rw [pushAll_cons, ih, push_closed]

theorem pushAll_cap (c : Chan α) (ds : List α) : (c.pushAll ds).cap = c.cap := by
  induction ds generalizing c with
  | nil => rfl
  | cons d ds ih => rw [pushAll_cons, ih, push_cap]

/-- With no consumer blocked on it, a channel only buffers: a send leaves recvq
at 0 and hands nothing over. -/
theorem push_idle (c : Chan α) (d : α) (hq : c.recvq = 0) :
    (c.push d).recvq = 0 ∧ (c.push d).handed = c.handed := by
  unfold Chan.push
  have h0 : ¬ 0 < c.recvq := by omega
  rw [if_neg h0]
  split
  · exact ⟨hq, rfl⟩
  · exact ⟨hq, rfl⟩

theorem pushAll_idle (c : Chan α) (ds : List α) (hq : c.recvq = 0) :
    (c.pushAll ds).recvq = 0 ∧ (c.pushAll ds).handed = c.handed := by
  induction ds generalizing c with
  | nil => exact ⟨hq, rfl⟩
  | cons d ds ih =>
    rw [pushAll_cons]
    have h1 := push_idle c d hq
    have h2 := ih (c.push d) h1.1
    exact ⟨h2.1, h2.2.trans h1.2⟩

theorem pushAll_buf (c : Chan α) (ds : List α) (hq : c.recvq = 0) :
    (c.pushAll ds).buf = c.buf ++ ds.take (c.cap - c.buf.length) := by
  induction ds generalizing c with
  | nil => simp [Chan.pushAll]
  | cons d ds ih =>
    have h0 : ¬ 0 < c.recvq := by omega
    rw [pushAll_cons, ih _ (push_idle c d hq).1]
    by_cases hr : c.buf.length < c.cap
    · have h1 : (c.push d).buf = c.buf ++ [d] := by simp [Chan.push, hr, h0]
      have h2 : (c.push d).cap = c.cap := push_cap c d
      have h3 : c.cap - c.buf.length = (c.cap - (c.buf.length + 1)) + 1 := by omega
      rw [h1, h2, h3]
      simp
    · have h1 : c.push d = c := by simp [Chan.push, hr, h0]
      have h3 : c.cap - c.buf.length = 0 := by omega
      rw [h1, h3]
      simp

theorem dispatch_ok {s : State α} (hw : WF s) (d : α) :
    ∃ s', dispatch s d = some s' ∧ WF s' ∧ sameGroup s s' ∧ s'.loop = s.loop ∧
      keys s' = keys s ∧ ptrsOf s'.g.out = ptrsOf s.g.out ∧ s'.heap.length = s.heap.length ∧
      ∀ q, s'.heap[q]? =
        if q ∈ ptrsOf s.g.out then (s.heap[q]?).map (fun c => c.push d) else s.heap[q]? := by
  obtain ⟨heap1, h1, hl1, hq1⟩ := dispatch_spec hw d
  have hstep := WF_dispatch hw h1
  refine ⟨_, h1, hstep.1, hstep.2.1, hstep.2.2, ?_, ?_, hl1, hq1⟩
  · simp only [keys, keys_stamped]
  · simp only [ptrsOf_stamped]

theorem passes_spec {s : State α} (hw : WF s) (ds : List α) :
    ∃ s', passes s ds = some s' ∧ WF s' ∧ sameGroup s s' ∧ s'.loop = s.loop ∧
      keys s' = keys s ∧ ptrsOf s'.g.out = ptrsOf s.g.out ∧ s'.heap.length = s.heap.length ∧
      ∀ q, s'.heap[q]? =
        if q ∈ ptrsOf s.g.out then (s.heap[q]?).map (fun c => c.pushAll ds) else s.heap[q]? := by
  induction ds generalizing s with
  | nil =>
    refine ⟨s, rfl, hw, ⟨rfl, rfl, rfl, rfl⟩, rfl, rfl, rfl, rfl, ?_⟩
    intro q
    by_cases hq : q ∈ ptrsOf s.g.out
    · rw [if_pos hq]; cases s.heap[q]? <;> rfl
    · rw [if_neg hq]
  | cons d ds ih =>
    obtain ⟨s1, h1, hw1, hg1, hlo1, hk1, hp1, hl1, hq1⟩ := dispatch_ok hw d
    obtain ⟨s2, h2, hw2, hg2, hlo2, hk2, hp2, hl2, hq2⟩ := ih hw1
    refine ⟨s2, by simp only [passes, h1, h2], hw2, ?_, by rw [hlo2, hlo1], by rw [hk2, hk1],
      by rw [hp2, hp1], by rw [hl2, hl1], ?_⟩
    · obtain ⟨a1, a2, a3, a4⟩ := hg1
      obtain ⟨b1, b2, b3, b4⟩ := hg2
      exact ⟨b1.trans a1, b2.trans a2, b3.trans a3, b4.trans a4⟩
    · intro q
      rw [hq2, hp1, hq1]
      by_cases hq : q ∈ ptrsOf s.g.out
      · simp only [if_pos hq]; cases s.heap[q]? <;> rfl
      · simp only [if_neg hq]

theorem inputClosed_eq {s s' : State α} (hp : s'.g.inp = s.g.inp)
    (hh : s'.heap[s.g.inp.ptr]? = s.heap[s.g.inp.ptr]?) : inputClosed s' = inputClosed s := by
  simp only [inputClosed, hp, hh]

theorem loopStep_running_open [Inhabited α] {s : State α} (hw : WF s) (hl : s.loop = .Running)
    (hi : inputClosed s = false) (d : α) : loopStep s (some d) = dispatch s d := by
  have hlt := hw.inp_lt
  have hsome : s.heap[s.g.inp.ptr]? = some (s.heap[s.g.inp.ptr]) := List.getElem?_eq_getElem hlt
  simp only [inputClosed, hsome] at hi
  simp only [loopStep, hl, inRecv, hsome, hi, Bool.false_eq_true, if_false, Option.map_some']

theorem WF.inp_not_mem {s : State α} (hw : WF s) : s.g.inp.ptr ∉ ptrsOf s.g.out := by
  intro h
  obtain ⟨e, he, hp⟩ := mem_ptrsOf_iff.1 h
  exact (hw.entry e he).2.1 hp

theorem processAll_eq_passes [Inhabited α] {s : State α} (hw : WF s) (hl : s.loop = .Running)
    (hi : inputClosed s = false) (ds : List α) : processAll s ds = passes s ds := by
  induction ds generalizing s with
  | nil => rfl
  | cons d ds ih =>
    simp only [processAll, passes, loopStep_running_open hw hl hi d]
    obtain ⟨s1, h1, hw1, hg1, hlo1, _, _, _, hq1⟩ := dispatch_ok hw d
    rw [h1]
    simp only
    apply ih hw1 (by rw [hlo1]; exact hl)
    have := inputClosed_eq hg1.2.2.2 (by rw [hq1, if_neg hw.inp_not_mem])
    rw [this]; exact hi

theorem keys_registered (s : State α) (n : Int) :
    keys (registered s n) = keys s ++ [freshKey s] := by
  simp [keys, registered]

theorem heap_registered_old (s : State α) (n : Int) (q : Nat) (hq : q < s.heap.length) :
    (registered s n).heap[q]? = s.heap[q]? := by
  simp only [registered]
  exact List.getElem?_append_left hq

theorem heap_registered_new (s : State α) (n : Int) :
    (registered s n).heap[(freshKey s).ptr]? =
      some { cap := n.toNat, buf := [], closed := false, recvq := 0, handed := [] } := by
  simp [registered, freshKey]

theorem heap_registered_ne (s : State α) (n : Int) (q : Nat) (hq : q ≠ (freshKey s).ptr) :
    (registered s n).heap[q]? = s.heap[q]? := by
  rcases Nat.lt_or_ge q s.heap.length with h | h
  · exact heap_registered_old s n q h
  · have h1 : s.heap.length < q := lt_of_le_of_ne h (fun e => hq (by simp [freshKey, e]))
    rw [List.getElem?_eq_none h, List.getElem?_eq_none]
    simp only [registered, List.length_append, List.length_singleton]
    omega

theorem registerAll_spec {s : State α} (hw : WF s) (ns : List Int) (hn : ∀ n ∈ ns, 0 ≤ n) :
    ∃ s1 hs, registerAll s ns = some (s1, hs) ∧ WF s1 ∧ sameGroup s s1 ∧ s1.loop = s.loop ∧
      keys s1 = keys s ++ hs ∧ hs.length = ns.length ∧ s.heap.length ≤ s1.heap.length ∧
      (∀ q, q < s.heap.length → s1.heap[q]? = s.heap[q]?) ∧
      ∀ h ∈ hs, ∃ n ∈ ns, s1.heap[h.ptr]? = some { cap := n.toNat, buf := [], closed := false, recvq := 0, handed := [] } := by
  induction ns generalizing s with
  | nil =>
    exact ⟨s, [], rfl, hw, ⟨rfl, rfl, rfl, rfl⟩, rfl, by simp, rfl, Nat.le_refl _,
      fun _ _ => rfl, by simp⟩
  | cons n ns ih =>
    have hn0 : 0 ≤ n := hn n (List.mem_cons_self _ _)
    have hw1 := WF_registered hw n
    obtain ⟨s2, hs, h2, hw2, hg2, hlo2, hk2, hlen2, hle2, hold2, hnew2⟩ :=
      ih hw1 (fun m hm => hn m (List.mem_cons_of_mem _ hm))
    have hlen1 : (registered s n).heap.length = s.heap.length + 1 := by simp [registered]
    refine ⟨s2, freshKey s :: hs, ?_, hw2, hg2, hlo2, ?_, by simp [hlen2], by omega, ?_, ?_⟩
    · simp only [registerAll, ReceiveChannel_spec hw n hn0, h2]
    · rw [hk2, keys_registered]; simp
    · intro q hq
      rw [hold2 q (by omega)]
      exact heap_registered_old s n q hq
    · intro h hh
      simp only [List.mem_cons] at hh
      rcases hh with rfl | hh
      · refine ⟨n, List.mem_cons_self _ _, ?_⟩
        rw [hold2 _ (by simp [freshKey, hlen1])]
        exact heap_registered_new s n
      · obtain ⟨m, hm, hq⟩ := hnew2 h hh
        exact ⟨m, List.mem_cons_of_mem _ hm, hq⟩

theorem recv_cons [Inhabited α] (c : Chan α) (x : α) (xs : List α) (h : c.buf = x :: xs) :
    c.recv = ({ c with buf := xs }, some (x, true)) := by
  simp [Chan.recv, h]

theorem recv_nil_closed [Inhabited α] (c : Chan α) (h : c.buf = []) (hc : c.closed = true) :
    c.recv = (c, some (default, false)) := by
  simp [Chan.recv, h, hc]

theorem recv_nil_open [Inhabited α] (c : Chan α) (h : c.buf = []) (hc : c.closed = false) :
    c.recv = ({ c with recvq := c.recvq + 1 }, none) := by
  simp [Chan.recv, h, hc]

theorem receive_spec [Inhabited α] (s : State α) (h : Value) (c : Chan α)
    (hc : s.heap[h.ptr]? = some c) :
    receive s h = some ({ s with heap := s.heap.set h.ptr c.recv.1 }, c.recv.2) := by
  simp [receive, chanRecv, hc]

/-- Receiving as many times as there are values at the front of the buffer
yields these values in order, each with ok = true, and leaves the rest. -/
theorem receiveN_front [Inhabited α] (h : Value) (ys : List α) :
    ∀ (xs : List α) (s : State α) (c : Chan α), s.heap[h.ptr]? = some c → c.buf = xs ++ ys →
      ∃ s', receiveN s h xs.length = some (s', xs.map (fun v => some (v, true))) ∧
        s'.heap[h.ptr]? = some { c with buf := ys } ∧
        (∀ q, q ≠ h.ptr → s'.heap[q]? = s.heap[q]?) ∧ s'.g = s.g ∧ s'.loop = s.loop := by
  intro xs
  induction xs with
  | nil =>
    intro s c hc hb
    refine ⟨s, rfl, ?_, fun _ _ => rfl, rfl, rfl⟩
    rw [hc]
    simp only [List.nil_append] at hb
    rw [← hb]
  | cons x xs ih =>
    intro s c hc hb
    have hr := recv_cons c x (xs ++ ys) hb
    have hstep := receive_spec s h c hc
    rw [hr] at hstep
    have hq := getElem?_set_if s.heap h.ptr
    obtain ⟨s', h1, h2, h3, h4, h5⟩ := ih { s with heap := s.heap.set h.ptr { c with buf := xs ++ ys } }
      { c with buf := xs ++ ys } (by simp only [hq _ c _ hc, if_pos]) rfl
    refine ⟨s', ?_, h2, ?_, h4, h5⟩
    · simp only [List.length_cons, receiveN, hstep, h1, List.map_cons]
    · intro q hne
      rw [h3 q hne]
      simp only [hq q c _ hc, if_neg hne]

theorem NewGroup_running (t : GoType) : (NewGroup α t).loop = .Running := rfl

theorem NewGroup_open (t : GoType) : inputClosed (NewGroup α t) = false := rfl

theorem NewGroup_keys (t : GoType) : keys (NewGroup α t) = [] := rfl

theorem WF.keys_nodup {s : State α} (hw : WF s) : (keys s).Nodup := by
  have h := hw.ptrs_nodup
  rw [← keys_ptr] at h
  exact List.Nodup.of_map _ h

theorem bufferedExample_reachable : Reachable (.base 0) bufferedExample :=
  Reachable.step
    (Reachable.register Reachable.init
      (ReceiveChannel_spec (WF_NewGroup Int (.base 0)) 1 (by decide)))
    (show loopStep (registered (NewGroup Int (.base 0)) 1) (some 7) = some bufferedExample from rfl)

theorem closedExample_reachable : Reachable (.base 0) closedExample :=
  Reachable.closeSend bufferedExample_reachable
    (show closeSend bufferedExample = some closedExample from rfl)

theorem waitingExample_reachable : Reachable (.base 0) waitingExample :=
  Reachable.read
    (Reachable.register Reachable.init
      (ReceiveChannel_spec (WF_NewGroup Int (.base 0)) 0 (by decide)))
    (show receive (registered (NewGroup Int (.base 0)) 0) (freshKey (NewGroup Int (.base 0))) =
      some (waitingExample, none) from rfl)

theorem emptyClosingExample_reachable : Reachable (.base 0) emptyClosingExample :=
  Reachable.step
    (Reachable.closeSend Reachable.init
      (show closeSend (NewGroup Int (.base 0)) = some _ from rfl))
    (show loopStep _ none = some emptyClosingExample from rfl)

/-- In every state of a group, CloseReceiveChannel never returns nil: with the
receive type of the group it panics inside Close, with any other type it
returns an error and leaves the state as it is. -/
theorem Reachable.close_returns_error [Inhabited α] {t : GoType} {s s' : State α}
    (hr : Reachable t s) {c : Iface} {e : Option CloseError}
    (h : CloseReceiveChannel s c = some (s', e)) : s' = s ∧ e ≠ none := by
  by_cases ht : TypeOf c = some s.g.receiveType
  · rw [CloseReceiveChannel_panics s c t hr.inv.2.2.2.1 ht] at h
    cases h
  · rw [CloseReceiveChannel_mismatch s c ht] at h
    simp only [Option.some.injEq, Prod.mk.injEq] at h
    refine ⟨h.1.symm, ?_⟩
    rw [← h.2]
    simp

/-- In every state of a group whose goroutine is in the closing branch with at
least one receiver registered, the shutdown step panics: the keys of the
registry are receive-only values. -/
theorem Reachable.closing_step_panics [Inhabited α] {t : GoType} {s : State α}
    (hr : Reachable t s) (hl : s.loop = .Closing) (hk : keys s ≠ []) (offer : Option α) :
    loopStep s offer = none := by
  have hall : ∀ k ∈ keys s, k.typ = .chanOf .RecvDir t :=
    fun k hk1 => ((hr.inv.1).key_open hk1).1.trans hr.inv.2.2.2.1
  simp only [loopStep, hl, shutdown_panics t hall hk]

theorem handedAt_eq {s : State α} {h : Value} {c : Chan α} (hc : s.heap[h.ptr]? = some c) :
    handedAt s h = c.handed := by
  simp [handedAt, hc]

theorem observe_sublist [Inhabited α] (h : Value) (evs : List (Ev α)) :
    ∀ (s : State α) (c : Chan α), WF s → h ∈ keys s → s.heap[h.ptr]? = some c →
      (0 < c.recvq → c.buf = []) →
      ∃ s2 rs c2, observe s h evs = some (s2, rs) ∧ s2.heap[h.ptr]? = some c2 ∧
        c2.cap = c.cap ∧ c2.closed = false ∧ h ∈ keys s2 ∧
        (rs ++ c2.buf).Sublist (c.buf ++ dispatched evs) ∧
        ∃ hs, c2.handed = c.handed ++ hs ∧ hs.Sublist rs := by
  induction evs with
  | nil =>
    intro s c hw hk hc _
    obtain ⟨_, _, c', hc', ho⟩ := hw.key_open hk
    rw [hc] at hc'
    simp only [Option.some.injEq] at hc'
    subst hc'
    exact ⟨s, [], c, rfl, hc, rfl, ho, hk, by simp [dispatched], [], by simp, List.Sublist.refl _⟩
  | cons ev evs ih =>
    intro s c hw hk hc hinv
    have hp : h.ptr ∈ ptrsOf s.g.out := (hw.key_iff_ptr h (hw.key_open hk).1).1 hk
    cases ev with
    | pass d =>
      obtain ⟨s1, h1, hw1, _, _, hk1, _, _, hq1⟩ := dispatch_ok hw d
      have hc1 : s1.heap[h.ptr]? = some (c.push d) := by rw [hq1, if_pos hp, hc]; rfl
      have hobs : ∀ s2 rs, observe s1 h evs = some (s2, rs) →
          observe s h (.pass d :: evs) =
            some (s2, (c.push d).handed.drop c.handed.length ++ rs) := by
        intro s2 rs h2
        simp only [observe, h1, h2, handedAt_eq hc1, handedAt_eq hc]
      by_cases hwait : 0 < c.recvq
      · have hbuf := hinv hwait
        have hpush : c.push d = { c with recvq := c.recvq - 1, handed := c.handed ++ [d] } := by
          simp [Chan.push, hwait]
        have hinv1 : 0 < (c.push d).recvq → (c.push d).buf = [] := by
          intro _; rw [hpush]; exact hbuf
        obtain ⟨s2, rs, c2, h2, hc2, hcap, hcl, hk2, hsub, hs, hhs, hhsub⟩ :=
          ih s1 (c.push d) hw1 (by rw [hk1]; exact hk) hc1 hinv1
        refine ⟨s2, [d] ++ rs, c2, ?_, hc2, by rw [hcap, push_cap], hcl, hk2, ?_, [d] ++ hs, ?_, ?_⟩
        · rw [hobs s2 rs h2, hpush]
          simp
        · rw [hpush] at hsub
          simp only [hbuf, List.nil_append, dispatched] at hsub ⊢
          simpa using hsub.cons₂ d
        · rw [hhs, hpush]; simp
        · exact List.Sublist.append (List.Sublist.refl _) hhsub
      · have hidle : c.recvq = 0 := by omega
        have hp1 := push_idle c d hidle
        have hinv1 : 0 < (c.push d).recvq → (c.push d).buf = [] := by
          intro h0; rw [hp1.1] at h0; exact absurd h0 (Nat.lt_irrefl 0)
        obtain ⟨s2, rs, c2, h2, hc2, hcap, hcl, hk2, hsub, hs, hhs, hhsub⟩ :=
          ih s1 (c.push d) hw1 (by rw [hk1]; exact hk) hc1 hinv1
        refine ⟨s2, rs, c2, ?_, hc2, by rw [hcap, push_cap], hcl, hk2, ?_, hs, ?_, hhsub⟩
        · rw [hobs s2 rs h2, hp1.2]
          simp
        · have hb : ((c.push d).buf ++ dispatched evs).Sublist (c.buf ++ d :: dispatched evs) := by
            unfold Chan.push
            rw [if_neg hwait]
            split
            · simp
            · exact List.Sublist.append_left (List.sublist_cons_self d _) c.buf
          exact hsub.trans hb
        · rw [hhs, hp1.2]
    | read =>
      have h1 := receive_spec s h c hc
      have hwr := WF_receive hw h1
      have hk1 : h ∈ keys { s with heap := s.heap.set h.ptr c.recv.1 } := hk
      have hc1 : ({ s with heap := s.heap.set h.ptr c.recv.1 } : State α).heap[h.ptr]? =
          some c.recv.1 := by
        simp only [getElem?_set_if s.heap h.ptr h.ptr c c.recv.1 hc, if_pos]
      have hopen : c.closed = false := by
        obtain ⟨_, _, c', hc', ho⟩ := hw.key_open hk
        rw [hc] at hc'
        simp only [Option.some.injEq] at hc'
        rw [hc']; exact ho
      have hinv1 : 0 < c.recv.1.recvq → c.recv.1.buf = [] := by
        cases hb : c.buf with
        | nil => rw [recv_nil_open c hb hopen]; intro _; exact hb
        | cons x xs =>
          rw [recv_cons c x xs hb]
          intro h0
          have := hinv h0
          rw [hb] at this
          cases this
      obtain ⟨s2, rs, c2, h2, hc2, hcap, hcl, hk2, hsub, hs, hhs, hhsub⟩ :=
        ih _ c.recv.1 hwr.1 hk1 hc1 hinv1
      refine ⟨s2, delivered c.recv.2 ++ rs, c2, by simp only [observe, h1, h2], hc2,
        by rw [hcap, recv_cap], hcl, hk2, ?_, hs, by rw [hhs, recv_handed],
        hhsub.trans (List.sublist_append_right _ _)⟩
      simp only [dispatched]
      cases hb : c.buf with
      | nil =>
        rw [recv_nil_open c hb hopen] at hsub ⊢
        simp only [delivered, List.nil_append]
        rw [hb] at hsub
        exact hsub
      | cons x xs =>
        rw [recv_cons c x xs hb] at hsub ⊢
        simp only [delivered, List.cons_append, List.nil_append, List.append_assoc]
        exact hsub.cons₂ x

theorem quiet_step [Inhabited α] {t : GoType} {b c : State α} (hr : Reachable t b)
    (hl : b.loop = .Terminated) (call : Call α) (h : call.run b = some c) :
    Reachable t c ∧ c.loop = .Terminated ∧
      (∀ (q : Nat) (x : Chan α), b.heap[q]? = some x → c.heap[q]? = some x) ∧
      (∀ (q : Nat) (y : Chan α), b.heap.length ≤ q → c.heap[q]? = some y →
        y.buf = [] ∧ y.handed = []) := by
  have hw := hr.inv.1
  cases call with
  | register n =>
    simp only [Call.run, Option.map_eq_some', Prod.exists, exists_and_right, exists_eq_right] at h
    obtain ⟨k, hk⟩ := h
    have hrc := Reachable.register hr hk
    obtain ⟨_, rfl, _⟩ := ReceiveChannel_some hw hk
    refine ⟨hrc, hl, ?_, ?_⟩
    · intro q x hx
      rw [heap_registered_old b n q (getElem?_some_lt hx)]; exact hx
    · intro q y hq hy
      by_cases hqe : q = (freshKey b).ptr
      · subst hqe
        rw [heap_registered_new] at hy
        simp only [Option.some.injEq] at hy
        rw [← hy]
        exact ⟨rfl, rfl⟩
      · rw [heap_registered_ne b n q hqe, List.getElem?_eq_none hq] at hy
        cases hy
  | unregister a =>
    simp only [Call.run, Option.map_eq_some', Prod.exists, exists_and_right, exists_eq_right] at h
    obtain ⟨e, he⟩ := h
    obtain ⟨rfl, _⟩ := hr.close_returns_error he
    refine ⟨hr, hl, fun q x hx => hx, ?_⟩
    intro q y hge hy
    rw [List.getElem?_eq_none hge] at hy
    cases hy
  | step offer =>
    simp only [Call.run, loopStep, hl, Option.some.injEq] at h
    subst h
    refine ⟨hr, hl, fun q x hx => hx, ?_⟩
    intro q y hge hy
    rw [List.getElem?_eq_none hge] at hy
    cases hy

theorem quiet_run [Inhabited α] {t : GoType} (calls : List (Call α)) :
    ∀ (b c : State α), Reachable t b → b.loop = .Terminated → runCalls b calls = some c →
      Reachable t c ∧ c.loop = .Terminated ∧
      (∀ (q : Nat) (x : Chan α), b.heap[q]? = some x → c.heap[q]? = some x) ∧
      (∀ (q : Nat) (y : Chan α), b.heap.length ≤ q → c.heap[q]? = some y →
        y.buf = [] ∧ y.handed = []) := by
  induction calls with
  | nil =>
    intro b c hr hl h
    simp only [runCalls, Option.some.injEq] at h
    subst h
    refine ⟨hr, hl, fun q x hx => hx, ?_⟩
    intro q y hge hy
    rw [List.getElem?_eq_none hge] at hy
    cases hy
  | cons call calls ih =>
    intro b c hr hl h
    simp only [runCalls] at h
    cases h1 : call.run b with
    | none => rw [h1] at h; cases h
    | some b1 =>
      rw [h1] at h
      simp only at h
      obtain ⟨hr1, hl1, hold1, hnew1⟩ := quiet_step hr hl call h1
      obtain ⟨hr2, hl2, hold2, hnew2⟩ := ih b1 c hr1 hl1 h
      refine ⟨hr2, hl2, fun q x hx => hold2 q x (hold1 q x hx), ?_⟩
      intro q z hge hz
      rcases Nat.lt_or_ge q b1.heap.length with hlt | hge1
      · have hy : b1.heap[q]? = some (b1.heap[q]) := List.getElem?_eq_getElem hlt
        have hyb := hnew1 q _ hge hy
        have hz' := hold2 q _ hy
        rw [hz] at hz'
        simp only [Option.some.injEq] at hz'
        rw [hz']; exact hyb
      · exact hnew2 q z hge1 hz

/-! ## The properties of the package -/

/-- C1 (fan-out to all receivers): on a new group, ReceiveChannel(c) for each c
of cs, all at least the number of values, registers as many distinct
receivers; after the goroutine has processed the values vs in order, with no
receive and no close in between, the registry still holds exactly these
receivers and each of them buffers exactly vs, so that receiving that many
times through it yields the values in the order written. -/
theorem C1_fan_out [Inhabited α] (t : GoType) (cs : List Int) (vs : List α)
    (hcap : ∀ c ∈ cs, (vs.length : Int) ≤ c) :
    ∃ s1 hs s2, registerAll (NewGroup α t) cs = some (s1, hs) ∧
      hs.length = cs.length ∧ hs.Nodup ∧ keys s1 = hs ∧
      processAll s1 vs = some s2 ∧ keys s2 = hs ∧
      ∀ h ∈ hs, (∃ c, s2.heap[h.ptr]? = some c ∧ c.buf = vs ∧ c.closed = false) ∧
        ∃ s3, receiveN s2 h vs.length = some (s3, vs.map (fun v => some (v, true))) := by
  have hn : ∀ c ∈ cs, (0 : Int) ≤ c := fun c hc => le_trans (Int.ofNat_nonneg _) (hcap c hc)
  obtain ⟨s1, hs, h1, hw1, hg1, hlo1, hk1, hlen1, _, hold1, hnew1⟩ :=
    registerAll_spec (WF_NewGroup α t) cs hn
  have hk1' : keys s1 = hs := by rw [hk1, NewGroup_keys]; rfl
  have hopen1 : inputClosed s1 = false := by
    rw [inputClosed_eq hg1.2.2.2 (hold1 _ (by simp [NewGroup]))]
    rfl
  obtain ⟨s2, h2, hw2, _, _, hk2, _, _, hq2⟩ := passes_spec hw1 vs
  refine ⟨s1, hs, s2, h1, hlen1, ?_, hk1', ?_, by rw [hk2, hk1'], ?_⟩
  · rw [← hk1']; exact hw1.keys_nodup
  · rw [processAll_eq_passes hw1 (by rw [hlo1]; rfl) hopen1]; exact h2
  · intro h hh
    obtain ⟨n, hn1, hc⟩ := hnew1 h hh
    have hmem : h.ptr ∈ ptrsOf s1.g.out := by
      have : h ∈ keys s1 := by rw [hk1']; exact hh
      exact (hw1.key_iff_ptr h (hw1.key_open this).1).1 this
    have hfinal : s2.heap[h.ptr]? =
        some (({ cap := n.toNat, buf := [], closed := false, recvq := 0, handed := [] } : Chan α).pushAll vs) := by
      rw [hq2, if_pos hmem, hc]; rfl
    have hbuf : (({ cap := n.toNat, buf := [], closed := false, recvq := 0, handed := [] } : Chan α).pushAll vs).buf = vs := by
      rw [pushAll_buf _ _ rfl]
      have : vs.length ≤ n.toNat := by
        have := hcap n hn1
        omega
      simp [List.take_of_length_le this]
    refine ⟨⟨_, hfinal, hbuf, by rw [pushAll_closed]⟩, ?_⟩
    obtain ⟨s3, h3, _⟩ := receiveN_front h [] vs s2 _ hfinal (by rw [hbuf]; simp)
    exact ⟨s3, h3⟩

/-- Witness for C1: two receivers of size 2 and the values 1, 2 (TestBroadcast). -/
theorem C1_fan_out_witness :
    (∀ c ∈ [(2 : Int), 2], (([1, 2] : List Int).length : Int) ≤ c) ∧
    ∃ s1 hs s2, registerAll (NewGroup Int (.base 0)) [2, 2] = some (s1, hs) ∧
      hs.length = ([2, 2] : List Int).length ∧ hs.Nodup ∧ keys s1 = hs ∧
      processAll s1 [1, 2] = some s2 ∧ keys s2 = hs ∧
      ∀ h ∈ hs, (∃ c, s2.heap[h.ptr]? = some c ∧ c.buf = [1, 2] ∧ c.closed = false) ∧
        ∃ s3, receiveN s2 h ([1, 2] : List Int).length =
          some (s3, ([1, 2] : List Int).map (fun v => some (v, true))) :=
  ⟨by decide, C1_fan_out (.base 0) [2, 2] [1, 2] (by decide)⟩

/-- Counterexample to C2 as stated.  First run: a consumer blocks in a receive on
a receiver of size 1, whose buffer is empty and so has room; the pass for 5
hands 5 to the consumer and appends nothing to the buffer.  Second run
(TestUnbuffered): the same with a receiver of size 0, whose buffer is full; the
endpoint is not left unchanged, the blocked consumer gets 5. -/
theorem C2_counterexample :
    (do
      let (s1, h) ← ReceiveChannel (NewGroup Int (.base 0)) 1
      let (s2, r) ← receive s1 h
      let s3 ← loopStep s2 (some 5)
      pure (r, s2.heap[h.ptr]?, s3.heap[h.ptr]?)) =
      some (none,
        some ({ cap := 1, buf := [], closed := false, recvq := 1, handed := [] } : Chan Int),
        some ({ cap := 1, buf := [], closed := false, recvq := 0, handed := [5] } : Chan Int)) ∧
    (do
      let (s1, h) ← ReceiveChannel (NewGroup Int (.base 0)) 0
      let (s2, r) ← receive s1 h
      let s3 ← loopStep s2 (some 5)
      pure (r, s2.heap[h.ptr]?, s3.heap[h.ptr]?)) =
      some (none,
        some ({ cap := 0, buf := [], closed := false, recvq := 1, handed := [] } : Chan Int),
        some ({ cap := 0, buf := [], closed := false, recvq := 0, handed := [5] } : Chan Int)) := by
  constructor <;> decide

/-- C2 as amended (one attempt per endpoint): in every state of a group, one
dispatch pass for d does not panic, keeps the registry keys, and treats each
registered endpoint once and by its own state alone: if a consumer is blocked
in a receive on it, d is handed to that consumer and the buffer is unchanged;
otherwise with room d is appended at the end of its buffer, and with a full
buffer the endpoint is unchanged; channels that are not registered are
untouched.  In particular a receiver of size 1 that is not drained while a and
then b are processed buffers exactly a: the first receive yields a, a
following receive that does not wait finds nothing and changes nothing, and a
following receive blocks. -/
theorem C2_one_attempt_per_endpoint [Inhabited α] (t : GoType) (s : State α)
    (hr : Reachable t s) (d : α) :
    (∃ s', dispatch s d = some s' ∧ keys s' = keys s ∧
      (∀ k ∈ keys s, ∃ c, s.heap[k.ptr]? = some c ∧
        (0 < c.recvq → s'.heap[k.ptr]? =
          some { c with recvq := c.recvq - 1, handed := c.handed ++ [d] }) ∧
        (c.recvq = 0 → c.buf.length < c.cap →
          s'.heap[k.ptr]? = some { c with buf := c.buf ++ [d] }) ∧
        (c.recvq = 0 → c.cap ≤ c.buf.length → s'.heap[k.ptr]? = some c)) ∧
      (∀ q, q ∉ ptrsOf s.g.out → s'.heap[q]? = s.heap[q]?)) ∧
    (∀ a b : α, ∃ s1 h s2 s3 s4 s5, ReceiveChannel (NewGroup α t) 1 = some (s1, h) ∧
      loopStep s1 (some a) = some s2 ∧ loopStep s2 (some b) = some s3 ∧
      (∃ c, s3.heap[h.ptr]? = some c ∧ c.buf = [a] ∧ c.cap = 1) ∧
      receive s3 h = some (s4, some (a, true)) ∧ tryReceive s4 h = some (s4, none) ∧
      receive s4 h = some (s5, none)) := by
  have hw := hr.inv.1
  constructor
  · obtain ⟨s', h1, _, _, _, hk, _, _, hq⟩ := dispatch_ok hw d
    refine ⟨s', h1, hk, ?_, ?_⟩
    · intro k hk1
      obtain ⟨ht, _, c, hc, _⟩ := hw.key_open hk1
      have hmem := (hw.key_iff_ptr k ht).1 hk1
      refine ⟨c, hc, ?_, ?_, ?_⟩
      · intro hwait
        rw [hq, if_pos hmem, hc]
        simp [Chan.push, hwait]
      · intro hidle hroom
        rw [hq, if_pos hmem, hc]
        simp [Chan.push, hidle, hroom]
      · intro hidle hfull
        rw [hq, if_pos hmem, hc]
        have : ¬ c.buf.length < c.cap := by omega
        simp [Chan.push, hidle, this]
    · intro q hq1
      rw [hq, if_neg hq1]
  · intro a b
    exact ⟨_, _, _, _, _, _, rfl, rfl, rfl, ⟨_, rfl, rfl, rfl⟩, rfl, rfl, rfl⟩

/-- Witness for C2 as amended: the group of TestUnbuffered with a consumer
blocked on its receiver of size 0, and the value 1. -/
theorem C2_one_attempt_per_endpoint_witness :
    Reachable (.base 0) waitingExample ∧
    ((∃ s', dispatch waitingExample 1 = some s' ∧ keys s' = keys waitingExample ∧
      (∀ k ∈ keys waitingExample, ∃ c, waitingExample.heap[k.ptr]? = some c ∧
        (0 < c.recvq → s'.heap[k.ptr]? =
          some { c with recvq := c.recvq - 1, handed := c.handed ++ [1] }) ∧
        (c.recvq = 0 → c.buf.length < c.cap →
          s'.heap[k.ptr]? = some { c with buf := c.buf ++ [1] }) ∧
        (c.recvq = 0 → c.cap ≤ c.buf.length → s'.heap[k.ptr]? = some c)) ∧
      (∀ q, q ∉ ptrsOf waitingExample.g.out → s'.heap[q]? = waitingExample.heap[q]?)) ∧
    (∀ a b : Int, ∃ s1 h s2 s3 s4 s5, ReceiveChannel (NewGroup Int (.base 0)) 1 = some (s1, h) ∧
      loopStep s1 (some a) = some s2 ∧ loopStep s2 (some b) = some s3 ∧
      (∃ c, s3.heap[h.ptr]? = some c ∧ c.buf = [a] ∧ c.cap = 1) ∧
      receive s3 h = some (s4, some (a, true)) ∧ tryReceive s4 h = some (s4, none) ∧
      receive s4 h = some (s5, none))) :=
  ⟨waitingExample_reachable,
   C2_one_attempt_per_endpoint (.base 0) waitingExample waitingExample_reachable 1⟩

/-- C3, the code at the failing input: a group with one receiver of size 1 whose
producer closes the send channel.  The goroutine finds the input closed and
enters the closing branch with the receiver still registered; its next step,
the shutdown section, panics at the first Close, on the receive-only key: no
receiver is closed, the registry is not emptied and the goroutine does not
return. -/
theorem C3_shutdown_panics :
    (do
      let (s1, h) ← ReceiveChannel (NewGroup Int (.base 0)) 1
      let s2 ← closeSend s1
      let s3 ← loopStep s2 none
      pure (s3.loop, keys s3 == [h], (s3.heap[h.ptr]?).map Chan.closed, loopStep s3 none)) =
    some (LoopState.Closing, true, some false, none) := by
  decide

/-- C4, the code at the failing input (the end of TestBroadcast): a receiver of
size 2 gets 1 and the consumer reads it, so its buffer is empty; the producer
closes the send channel and the goroutine enters the closing branch.  The
receiver is still open there, so a read on it blocks instead of reporting
closure, and the shutdown step panics instead of closing it: no read on the
receiver ever reports closure. -/
theorem C4_closure_never_reported :
    (do
      let (s1, h) ← ReceiveChannel (NewGroup Int (.base 0)) 2
      let s2 ← loopStep s1 (some 1)
      let (s3, m) ← receive s2 h
      let s4 ← closeSend s3
      let s5 ← loopStep s4 none
      let (_, m2) ← receive s5 h
      pure ((m, m2), (s5.loop, s5.heap[h.ptr]?), loopStep s5 none)) =
    some ((some ((1 : Int), true), none), (LoopState.Closing,
      some ({ cap := 2, buf := [], closed := false, recvq := 0, handed := [] } : Chan Int)),
      none) := by
  rfl

/-- C5 (type check of CloseReceiveChannel): in every state of a group for element
type t and for every argument c, the call returns an error value exactly when
the type of c is not the receive-channel type of t, whether or not c is a
registered handle; and when it returns an error the whole state, registry and
channels, is as before. -/
theorem C5_close_type_check [Inhabited α] (t : GoType) (s : State α) (hr : Reachable t s)
    (c : Iface) :
    ((∃ s' e, CloseReceiveChannel s c = some (s', some e)) ↔
      TypeOf c ≠ some (.chanOf .RecvDir t)) ∧
    (TypeOf c ≠ some (.chanOf .RecvDir t) →
      CloseReceiveChannel s c = some (s, some { got := TypeOf c, expected := .chanOf .RecvDir t })) ∧
    (∀ s' e, CloseReceiveChannel s c = some (s', some e) → s' = s) := by
  have hrt : s.g.receiveType = .chanOf .RecvDir t := hr.inv.2.2.2.1
  have hmatch : TypeOf c = some s.g.receiveType →
      ∀ s' e, CloseReceiveChannel s c ≠ some (s', some e) := by
    intro ht s' e h
    rw [CloseReceiveChannel_panics s c t hrt ht] at h
    cases h
  rw [← hrt]
  refine ⟨⟨?_, ?_⟩, ?_, ?_⟩
  · rintro ⟨s', e, h⟩ ht
    exact hmatch ht s' e h
  · intro ht
    exact ⟨s, _, CloseReceiveChannel_mismatch s c ht⟩
  · intro ht
    exact CloseReceiveChannel_mismatch s c ht
  · intro s' e h
    by_cases ht : TypeOf c = some s.g.receiveType
    · exact absurd h (hmatch ht s' e)
    · rw [CloseReceiveChannel_mismatch s c ht] at h
      simp only [Option.some.injEq, Prod.mk.injEq] at h
      exact h.1.symm

/-- Witness for C5: a string passed to a group of element type 0, as at the end
of TestCloseReceive. -/
theorem C5_close_type_check_witness :
    Reachable (.base 0) (NewGroup Int (.base 0)) ∧
    (((∃ s' e, CloseReceiveChannel (NewGroup Int (.base 0)) (some { typ := .base 1, ptr := 0 }) =
        some (s', some e)) ↔
      TypeOf (some { typ := .base 1, ptr := 0 }) ≠ some (.chanOf .RecvDir (.base 0))) ∧
    (TypeOf (some { typ := .base 1, ptr := 0 }) ≠ some (.chanOf .RecvDir (.base 0)) →
      CloseReceiveChannel (NewGroup Int (.base 0)) (some { typ := .base 1, ptr := 0 }) =
        some (NewGroup Int (.base 0),
          some { got := TypeOf (some { typ := .base 1, ptr := 0 }),
                 expected := .chanOf .RecvDir (.base 0) })) ∧
    (∀ s' e, CloseReceiveChannel (NewGroup Int (.base 0)) (some { typ := .base 1, ptr := 0 }) =
        some (s', some e) → s' = NewGroup Int (.base 0))) :=
  ⟨Reachable.init, C5_close_type_check (.base 0) (NewGroup Int (.base 0)) Reachable.init _⟩

/-- C6, the code at the failing input (TestCloseReceive): a receiver of size 1
gets 1, the consumer reads it, and CloseReceiveChannel is called on the
registered handle.  The call passes the type check and panics inside Close, on
the receive-only value: it does not return nil, and the handle stays
registered and open. -/
theorem C6_close_registered_panics :
    (do
      let (s1, h) ← ReceiveChannel (NewGroup Int (.base 0)) 1
      let s2 ← loopStep s1 (some 1)
      let (s3, _) ← receive s2 h
      pure (keys s3 == [h], s3.heap[h.ptr]?, CloseReceiveChannel s3 (some h))) =
    some (true,
      some ({ cap := 1, buf := [], closed := false, recvq := 0, handed := [] } : Chan Int),
      none) := by
  decide

/-- C7 (registration without replay): in every state of a group and for every
n at least 0, ReceiveChannel(n) succeeds and adds exactly one entry, under a
key that was not registered and whose channel did not exist before, for an
open channel of capacity n with an empty buffer, on which no consumer waits and
to which nothing was handed; every existing entry and every existing channel
is as before.  Whatever was dispatched before the call is therefore not in the
new buffer, and after any later sequence of dispatch passes the new receiver
holds the first n of the values of those passes. -/
theorem C7_registration_no_replay [Inhabited α] (t : GoType) (s : State α) (hr : Reachable t s)
    (n : Int) (hn : 0 ≤ n) :
    ∃ s' h, ReceiveChannel s n = some (s', h) ∧ h.typ = .chanOf .RecvDir t ∧
      h ∉ keys s ∧ s.heap[h.ptr]? = none ∧
      keys s' = keys s ++ [h] ∧ (∃ v, s'.g.out = s.g.out ++ [(h, v)]) ∧
      s'.heap[h.ptr]? =
        some { cap := n.toNat, buf := [], closed := false, recvq := 0, handed := [] } ∧
      (∀ q, q ≠ h.ptr → s'.heap[q]? = s.heap[q]?) ∧
      ∀ ds, ∃ u, passes s' ds = some u ∧ h ∈ keys u ∧
        u.heap[h.ptr]? =
          some { cap := n.toNat, buf := ds.take n.toNat, closed := false, recvq := 0,
                 handed := [] } := by
  have hw := hr.inv.1
  have hw' := WF_registered hw n
  have hmem : freshKey s ∈ keys (registered s n) := by rw [keys_registered]; simp
  refine ⟨registered s n, freshKey s, ReceiveChannel_spec hw n hn, hr.inv.2.2.2.1,
    hw.freshKey_not_mem, ?_, keys_registered s n, ⟨_, rfl⟩, heap_registered_new s n,
    heap_registered_ne s n, ?_⟩
  · exact List.getElem?_eq_none (Nat.le_refl _)
  · intro ds
    obtain ⟨u, hu, _, _, _, hku, _, _, hqu⟩ := passes_spec hw' ds
    refine ⟨u, hu, by rw [hku]; exact hmem, ?_⟩
    have hp : (freshKey s).ptr ∈ ptrsOf (registered s n).g.out :=
      (hw'.key_iff_ptr _ (hw'.key_open hmem).1).1 hmem
    rw [hqu, if_pos hp, heap_registered_new]
    simp only [Option.map_some', Option.some.injEq]
    have h1 := pushAll_buf
      ({ cap := n.toNat, buf := [], closed := false, recvq := 0, handed := [] } : Chan α) ds rfl
    have h2 := pushAll_cap
      ({ cap := n.toNat, buf := [], closed := false, recvq := 0, handed := [] } : Chan α) ds
    have h3 := pushAll_closed
      ({ cap := n.toNat, buf := [], closed := false, recvq := 0, handed := [] } : Chan α) ds
    have h4 := pushAll_idle
      ({ cap := n.toNat, buf := [], closed := false, recvq := 0, handed := [] } : Chan α) ds rfl
    cases hres : ({ cap := n.toNat, buf := [], closed := false, recvq := 0, handed := [] } :
        Chan α).pushAll ds with
    | mk cap buf closed recvq handed =>
      rw [hres] at h1 h2 h3 h4
      simp at h1 h2 h3 h4
      simp [h1, h2, h3, h4.1, h4.2]

/-- Witness for C7: a receiver of size 1 registered on a new group. -/
theorem C7_registration_no_replay_witness :
    Reachable (.base 0) (NewGroup Int (.base 0)) ∧ (0 : Int) ≤ 1 ∧
    ∃ s' h, ReceiveChannel (NewGroup Int (.base 0)) 1 = some (s', h) ∧
      h.typ = .chanOf .RecvDir (.base 0) ∧
      h ∉ keys (NewGroup Int (.base 0)) ∧ (NewGroup Int (.base 0)).heap[h.ptr]? = none ∧
      keys s' = keys (NewGroup Int (.base 0)) ++ [h] ∧
      (∃ v, s'.g.out = (NewGroup Int (.base 0)).g.out ++ [(h, v)]) ∧
      s'.heap[h.ptr]? = some { cap := (1 : Int).toNat, buf := [], closed := false, recvq := 0, handed := [] } ∧
      (∀ q, q ≠ h.ptr → s'.heap[q]? = (NewGroup Int (.base 0)).heap[q]?) ∧
      ∀ ds, ∃ u, passes s' ds = some u ∧ h ∈ keys u ∧
        u.heap[h.ptr]? =
          some { cap := (1 : Int).toNat, buf := ds.take (1 : Int).toNat, closed := false, recvq := 0,
                 handed := [] } :=
  ⟨Reachable.init, by decide,
   C7_registration_no_replay (.base 0) (NewGroup Int (.base 0)) Reachable.init 1 (by decide)⟩

/-- C8 (registry invariant): in every state reachable from NewGroup by
ReceiveChannel, CloseReceiveChannel calls that return, steps of the goroutine
(dispatch passes and the shutdown), the producer closing the send channel and
consumers receiving, every key of the registry is the handle of an existing
open channel, the first select case stored with it sends on that same channel,
and a dispatch pass does not panic: it never sends on a closed channel. -/
theorem C8_registry_invariant [Inhabited α] (t : GoType) (s : State α) (hr : Reachable t s) :
    (∀ e ∈ s.g.out, ∃ c, s.heap[e.1.ptr]? = some c ∧ c.closed = false ∧
      ∃ snd, e.2 = casesFor s.g.chanType e.1.ptr snd) ∧
    (keys s).Nodup ∧
    ∀ d, ∃ s', dispatch s d = some s' := by
  have hw := hr.inv.1
  refine ⟨?_, hw.keys_nodup, ?_⟩
  · intro e he
    obtain ⟨_, _, hs, c, hc, ho⟩ := hw.entry e he
    exact ⟨c, hc, ho, hs⟩
  · intro d
    obtain ⟨s', h1, _⟩ := dispatch_ok hw d
    exact ⟨s', h1⟩

/-- Witness for C8: the group with one receiver that buffers 7, after the
producer has closed the send channel. -/
theorem C8_registry_invariant_witness :
    Reachable (.base 0) closedExample ∧
    (∀ e ∈ closedExample.g.out, ∃ c, closedExample.heap[e.1.ptr]? = some c ∧ c.closed = false ∧
      ∃ snd, e.2 = casesFor closedExample.g.chanType e.1.ptr snd) ∧
    (keys closedExample).Nodup ∧
    ∀ d, ∃ s', dispatch closedExample d = some s' :=
  ⟨closedExample_reachable, C8_registry_invariant (.base 0) closedExample closedExample_reachable⟩

/-- C9 (FIFO per receiver): in every state of a group, for a receiver registered
with any size n at least 0 (size 0 included) and for every interleaving of
dispatch passes with receives through its handle, the trace runs without panic
and the values the receiver observes (those its consumers got, from the buffer
or handed over while blocked, followed by those still buffered) are a
subsequence of the dispatched values, in the order dispatched and each
position used at most once; every value handed to a blocked consumer is among
the values observed. -/
theorem C9_fifo_per_receiver [Inhabited α] (t : GoType) (s : State α) (hr : Reachable t s)
    (n : Int) (hn : 0 ≤ n) (evs : List (Ev α)) :
    ∃ s1 h s2 rs c, ReceiveChannel s n = some (s1, h) ∧ observe s1 h evs = some (s2, rs) ∧
      s2.heap[h.ptr]? = some c ∧ c.cap = n.toNat ∧
      (rs ++ c.buf).Sublist (dispatched evs) ∧ c.handed.Sublist rs := by
  have hw := hr.inv.1
  have hmem : freshKey s ∈ keys (registered s n) := by rw [keys_registered]; simp
  obtain ⟨s2, rs, c2, h2, hc2, hcap, _, _, hsub, hs, hhs, hhsub⟩ :=
    observe_sublist (freshKey s) evs (registered s n) _ (WF_registered hw n) hmem
      (heap_registered_new s n) (fun h0 => absurd h0 (Nat.lt_irrefl 0))
  refine ⟨registered s n, freshKey s, s2, rs, c2, ReceiveChannel_spec hw n hn, h2, hc2, hcap,
    by simpa using hsub, ?_⟩
  rw [hhs]
  simpa using hhsub

/-- Witness for C9: a receiver of size 0 on a new group (TestUnbuffered): a
consumer blocks, 1 is handed to it; a consumer blocks again, 2 is handed to
it; 3 finds no consumer and no room and is discarded.  The consumers got 1
and 2. -/
theorem C9_fifo_per_receiver_witness :
    Reachable (.base 0) (NewGroup Int (.base 0)) ∧ (0 : Int) ≤ 0 ∧
    (∃ s1 h s2, ReceiveChannel (NewGroup Int (.base 0)) 0 = some (s1, h) ∧
      observe s1 h [.read, .pass 1, .read, .pass 2, .pass 3] = some (s2, [1, 2])) ∧
    ∃ s1 h s2 rs c, ReceiveChannel (NewGroup Int (.base 0)) 0 = some (s1, h) ∧
      observe s1 h [.read, .pass 1, .read, .pass 2, .pass 3] = some (s2, rs) ∧
      s2.heap[h.ptr]? = some c ∧ c.cap = (0 : Int).toNat ∧
      (rs ++ c.buf).Sublist (dispatched [.read, .pass 1, .read, .pass 2, .pass 3]) ∧
      c.handed.Sublist rs :=
  ⟨Reachable.init, by decide, ⟨_, _, _, rfl, rfl⟩,
   C9_fifo_per_receiver (.base 0) (NewGroup Int (.base 0)) Reachable.init 0 (by decide) _⟩

/-- Counterexample to C10 as stated: on a new group the producer closes the send
channel and the goroutine shuts down and returns with an empty registry; a
later ReceiveChannel(1) then registers an open endpoint, so the registry does
not stay empty. -/
theorem C10_counterexample :
    (do
      let s1 ← closeSend (NewGroup Int (.base 0))
      let s2 ← loopStep s1 none
      let s3 ← loopStep s2 none
      let (s4, h) ← ReceiveChannel s3 1
      pure (s3.loop, keys s3, s4.loop, keys s4, (s4.heap[h.ptr]?).map Chan.closed)) =
    some (LoopState.Terminated, [], LoopState.Terminated,
      [{ typ := .chanOf .RecvDir (.base 0), ptr := 1 }], some false) := by
  decide

/-- C10 as amended (terminal state): in every state of a group whose goroutine
has observed closure of the input channel while no endpoint is registered, the
goroutine reaches Terminated with an empty registry.  After every later
sequence of ReceiveChannel calls, CloseReceiveChannel calls and steps of the
goroutine that return, it is still Terminated, a further step of it changes
nothing, and no value has been delivered to any endpoint: every channel that
existed has its buffer and its handed-over values as they were, and every
channel made since has received nothing.  The registry does not stay empty:
in each such state ReceiveChannel(n), with n at least 0, registers one fresh
open endpoint. -/
theorem C10_terminal_state [Inhabited α] (t : GoType) (s : State α) (hr : Reachable t s)
    (hl : s.loop = .Closing) (hk : keys s = []) (offer : Option α) :
    ∃ s1, loopStep s offer = some s1 ∧ s1.loop = .Terminated ∧ keys s1 = [] ∧
      ∀ calls s2, runCalls s1 calls = some s2 →
        s2.loop = .Terminated ∧ (∀ o, loopStep s2 o = some s2) ∧
        (∀ (q : Nat) (c : Chan α), s1.heap[q]? = some c →
          ∃ c2, s2.heap[q]? = some c2 ∧ c2.buf = c.buf ∧ c2.handed = c.handed) ∧
        (∀ (q : Nat) (c2 : Chan α), s1.heap.length ≤ q → s2.heap[q]? = some c2 →
          c2.buf = [] ∧ c2.handed = []) ∧
        ∀ n, 0 ≤ n → ∃ s3 h, ReceiveChannel s2 n = some (s3, h) ∧ h ∉ keys s2 ∧
          keys s3 = keys s2 ++ [h] ∧ s3.loop = .Terminated ∧
          s3.heap[h.ptr]? =
            some { cap := n.toNat, buf := [], closed := false, recvq := 0, handed := [] } := by
  have hstep : loopStep s offer = some { s with loop := .Terminated } := by
    simp only [loopStep, hl, shutdown_empty hk]
  have hr1 := Reachable.step hr hstep
  refine ⟨_, hstep, rfl, hk, ?_⟩
  intro calls s2 hrun
  obtain ⟨hr2, hl2, hold, hnew⟩ := quiet_run calls _ s2 hr1 rfl hrun
  have hw2 := hr2.inv.1
  refine ⟨hl2, ?_, ?_, hnew, ?_⟩
  · intro o; simp only [loopStep, hl2]
  · intro q c hc
    exact ⟨c, hold q c hc, rfl, rfl⟩
  · intro n hn
    exact ⟨_, _, ReceiveChannel_spec hw2 n hn, hw2.freshKey_not_mem, keys_registered s2 n, hl2,
      heap_registered_new s2 n⟩

/-- Witness for C10 as amended: the group without receivers whose goroutine has
found the input channel closed. -/
theorem C10_terminal_state_witness :
    Reachable (.base 0) emptyClosingExample ∧ emptyClosingExample.loop = .Closing ∧
    keys emptyClosingExample = [] ∧
    ∃ s1, loopStep emptyClosingExample none = some s1 ∧ s1.loop = .Terminated ∧ keys s1 = [] ∧
      ∀ calls s2, runCalls s1 calls = some s2 →
        s2.loop = .Terminated ∧ (∀ o, loopStep s2 o = some s2) ∧
        (∀ (q : Nat) (c : Chan Int), s1.heap[q]? = some c →
          ∃ c2, s2.heap[q]? = some c2 ∧ c2.buf = c.buf ∧ c2.handed = c.handed) ∧
        (∀ (q : Nat) (c2 : Chan Int), s1.heap.length ≤ q → s2.heap[q]? = some c2 →
          c2.buf = [] ∧ c2.handed = []) ∧
        ∀ n, 0 ≤ n → ∃ s3 h, ReceiveChannel s2 n = some (s3, h) ∧ h ∉ keys s2 ∧
          keys s3 = keys s2 ++ [h] ∧ s3.loop = .Terminated ∧
          s3.heap[h.ptr]? =
            some { cap := n.toNat, buf := [], closed := false, recvq := 0, handed := [] } :=
  ⟨emptyClosingExample_reachable, rfl, rfl,
   C10_terminal_state (.base 0) emptyClosingExample emptyClosingExample_reachable rfl rfl none⟩

end Broadcast
